import Mathlib

/-!
# Verification of the iron-veil database masking proxy

A shallow embedding, in Lean 4, of the core algorithms of the `iron-veil`
transparent PII-masking database proxy:

* the PII pattern scanner (`src/scanner.rs`),
* the deterministic fake-data masking engine (`src/interceptor.rs`),
* the PostgreSQL v3 wire codec (`src/protocol/postgres.rs`),
* the MySQL wire codec (`src/protocol/mysql.rs`).

Bytes are modelled as natural numbers (readers only ever produce values
below 256; writers reduce modulo 256 where the Rust code truncates).
Byte buffers are `List Nat`.  Fallible Rust code (`anyhow::Result`) is
modelled with explicit result types; places where the Rust code would
panic (out-of-bounds `advance`/`split_to`/`get_*` on the `bytes` crate)
are modelled by a distinct `crash` outcome.

External crates used by the source (`fake`, `serde_json`) are not part of
this repository; calls into them are taken as explicit function
parameters (`FakeGen`, the `jsonMasked` oracle) so that every theorem
holds for all behaviours of those crates, while everything implemented in
the repository itself is embedded faithfully.
-/

namespace IronVeil

/-- A byte, modelled as a natural number (< 256 by construction). -/
abbrev Byte := Nat

/-! ## 64-bit arithmetic helpers (machine integers as `Nat` mod `2^64`) -/

def wrap64 (n : Nat) : Nat := n % (2 ^ 64)

/-- Rotate a 64-bit word (given as a `Nat` below `2^64`) left by `r` bits. -/
def rotl64 (x r : Nat) : Nat := wrap64 (x <<< r) ||| (x >>> (64 - r))

/-- Interpret a byte list as a little-endian number (first byte lowest). -/
def leWord : List Byte → Nat
  | [] => 0
  | b :: rest => b + 256 * leWord rest

/-- Write `w` bytes of `n`, little-endian. -/
def leBytes (w : Nat) (n : Nat) : List Byte :=
  match w with
  | 0 => []
  | k + 1 => (n % 256) :: leBytes k (n / 256)

/-! ## SipHash-1-3

`std::collections::hash_map::DefaultHasher` is SipHash-1-3 with both key
words zero.  `interceptor.rs` derives every masking seed from it
(`DefaultHasher::new()`, `val.hash(&mut hasher)`, `hasher.finish()`).
-/

structure SipState where
  v0 : Nat
  v1 : Nat
  v2 : Nat
  v3 : Nat

def sipRound (s : SipState) : SipState :=
  let v0 := wrap64 (s.v0 + s.v1)
  let v1 := rotl64 s.v1 13
  let v1 := v1 ^^^ v0
  let v0 := rotl64 v0 32
  let v2 := wrap64 (s.v2 + s.v3)
  let v3 := rotl64 s.v3 16
  let v3 := v3 ^^^ v2
  let v0 := wrap64 (v0 + v3)
  let v3 := rotl64 v3 21
  let v3 := v3 ^^^ v0
  let v2 := wrap64 (v2 + v1)
  let v1 := rotl64 v1 17
  let v1 := v1 ^^^ v2
  let v2 := rotl64 v2 32
  ⟨v0, v1, v2, v3⟩

def sipRounds (n : Nat) (s : SipState) : SipState :=
  match n with
  | 0 => s
  | k + 1 => sipRounds k (sipRound s)

/-- One message word: `v3 ^= m`, `c` rounds, `v0 ^= m`. -/
def sipCompress (c : Nat) (s : SipState) (m : Nat) : SipState :=
  let s1 := sipRounds c { s with v3 := s.v3 ^^^ m }
  { s1 with v0 := s1.v0 ^^^ m }

/-- Absorb all complete 8-byte little-endian words, returning leftovers. -/
def sipBlocks (c : Nat) (s : SipState) : List Byte → SipState × List Byte
  | b0 :: b1 :: b2 :: b3 :: b4 :: b5 :: b6 :: b7 :: rest =>
      sipBlocks c (sipCompress c s (leWord [b0, b1, b2, b3, b4, b5, b6, b7])) rest
  | rest => (s, rest)

/-- SipHash with `c` compression rounds and `d` finalization rounds. -/
def sipHash (c d : Nat) (k0 k1 : Nat) (msg : List Byte) : Nat :=
  let s0 : SipState :=
    ⟨0x736f6d6570736575 ^^^ k0, 0x646f72616e646f6d ^^^ k1,
     0x6c7967656e657261 ^^^ k0, 0x7465646279746573 ^^^ k1⟩
  let (s, tail) := sipBlocks c s0 msg
  let b := wrap64 ((msg.length % 256) <<< 56) + leWord tail
  let s1 := sipCompress c s b
  let s2 := sipRounds d { s1 with v2 := s1.v2 ^^^ 0xff }
  s2.v0 ^^^ s2.v1 ^^^ s2.v2 ^^^ s2.v3

/-- SipHash-1-3 with the zero key: the exact hash behind Rust's
`DefaultHasher` byte stream. -/
def sipHash13 (msg : List Byte) : Nat := sipHash 1 3 0 0 msg

/-- The seed used by `on_data_row`/`on_result_row`:
`val.hash(&mut hasher)` with `val : BytesMut` feeds the hasher the 8
little-endian bytes of the length (`write_usize`, a 64-bit `usize`)
followed by the data bytes. -/
def defaultHashBytes (data : List Byte) : Nat :=
  sipHash13 (leBytes 8 data.length ++ data)

/-- The seed used by `mask_postgres_array` (and `mask_json_recursively`):
`clean_val.hash(&mut hasher)` with a `String`/`str` feeds the hasher the
UTF-8 bytes followed by a single `0xff` terminator byte. -/
def defaultHashStr (data : List Byte) : Nat :=
  sipHash13 (data ++ [0xff])

/-! ## UTF-8

`std::str::from_utf8` / `String::from_utf8` validation and decoding to
Unicode scalar values, and re-encoding.  Scalar values (code points) are
modelled as `Nat`. -/

/-- A Unicode scalar value (code point), as produced by UTF-8 decoding. -/
abbrev Cp := Nat

def contByte (b : Byte) : Bool := 0x80 ≤ b && b < 0xC0

/-- Decode a UTF-8 byte sequence into its scalar values; `none` exactly
when Rust's `std::str::from_utf8` rejects the bytes. -/
def utf8Decode : List Byte → Option (List Cp)
  | [] => some []
  | b :: rest =>
    if b < 0x80 then
      (utf8Decode rest).map (b :: ·)
    else if b < 0xC2 then none
    else if b < 0xE0 then
      match rest with
      | c1 :: rest1 =>
        if contByte c1 then
          (utf8Decode rest1).map (((b - 0xC0) * 64 + (c1 - 0x80)) :: ·)
        else none
      | [] => none
    else if b < 0xF0 then
      match rest with
      | c1 :: c2 :: rest2 =>
        let lo1 : Byte := if b = 0xE0 then 0xA0 else 0x80
        let hi1 : Byte := if b = 0xED then 0xA0 else 0xC0
        if (lo1 ≤ c1 && c1 < hi1) && contByte c2 then
          (utf8Decode rest2).map
            (((b - 0xE0) * 4096 + (c1 - 0x80) * 64 + (c2 - 0x80)) :: ·)
        else none
      | _ => none
    else if b < 0xF5 then
      match rest with
      | c1 :: c2 :: c3 :: rest3 =>
        let lo1 : Byte := if b = 0xF0 then 0x90 else 0x80
        let hi1 : Byte := if b = 0xF4 then 0x90 else 0xC0
        if ((lo1 ≤ c1 && c1 < hi1) && contByte c2) && contByte c3 then
          (utf8Decode rest3).map
            (((b - 0xF0) * 262144 + (c1 - 0x80) * 4096 +
              (c2 - 0x80) * 64 + (c3 - 0x80)) :: ·)
        else none
      | _ => none
    else none

def isValidUtf8 (bs : List Byte) : Bool := (utf8Decode bs).isSome

/-- Encode one scalar value as UTF-8 bytes. -/
def utf8EncodeChar (c : Cp) : List Byte :=
  if c < 0x80 then [c]
  else if c < 0x800 then [0xC0 + c / 64, 0x80 + c % 64]
  else if c < 0x10000 then [0xE0 + c / 4096, 0x80 + (c / 64) % 64, 0x80 + c % 64]
  else [0xF0 + c / 262144, 0x80 + (c / 4096) % 64, 0x80 + (c / 64) % 64, 0x80 + c % 64]

def utf8Encode (cs : List Cp) : List Byte := cs.flatMap utf8EncodeChar

/-- ASCII string literals as byte/code-point lists. -/
def asciiBytes (s : String) : List Nat := s.toList.map Char.toNat

/-! ## The PII scanner (`src/scanner.rs`)

The seven anchored regular expressions of `PiiScanner::new`, embedded as
executable matchers over code-point lists.  A matcher maps an input
suffix to the list of suffixes remaining after every possible way the
pattern can consume a prefix; a full anchored match of the whole input
exists iff the empty suffix is reachable. -/

/-- A regular-expression fragment: all possible remainders after
matching a prefix of the input. -/
def Rx : Type := List Cp → List (List Cp)

/-- Match a single character of a class. -/
def rxClass (p : Cp → Bool) : Rx := fun s =>
  match s with
  | [] => []
  | c :: rest => if p c then [rest] else []

/-- Match a literal character. -/
def rxLit (a : Cp) : Rx := rxClass (· == a)

/-- Sequencing. -/
def rxSeq (a b : Rx) : Rx := fun s => (a s).flatMap b

/-- Alternation. -/
def rxAlt (a b : Rx) : Rx := fun s => a s ++ b s

/-- `r?` -/
def rxOpt (a : Rx) : Rx := fun s => s :: a s

/-- `r{n}` for a fixed count. -/
def rxRep (a : Rx) : Nat → Rx
  | 0 => fun s => [s]
  | n + 1 => rxSeq a (rxRep a n)

/-- `[class]+` : one or more characters of a class. -/
def rxClassPlus (p : Cp → Bool) : Rx := fun s =>
  match s with
  | [] => []
  | c :: rest => if p c then rest :: rxClassPlus p rest else []

/-- Anchored full match (`^...$`): the whole input can be consumed. -/
def rxMatch (a : Rx) (s : List Cp) : Bool := (a s).any (·.isEmpty)

/-! Character classes (code points). -/

def isDigitC (c : Cp) : Bool := 48 ≤ c && c ≤ 57
def isLowerC (c : Cp) : Bool := 97 ≤ c && c ≤ 122
def isUpperC (c : Cp) : Bool := 65 ≤ c && c ≤ 90
/-- `\s` of the `regex` crate: `[\t\n\v\f\r ]`. -/
def isWsC (c : Cp) : Bool := c == 32 || (9 ≤ c && c ≤ 13)
/-- `[a-z0-9._%+-]` under `(?i)`. -/
def isEmailLocalC (c : Cp) : Bool :=
  isLowerC c || isUpperC c || isDigitC c ||
    c == 46 || c == 95 || c == 37 || c == 43 || c == 45
/-- `[a-z0-9.-]` under `(?i)`. -/
def isEmailDomainC (c : Cp) : Bool :=
  isLowerC c || isUpperC c || isDigitC c || c == 46 || c == 45
def isAlphaC (c : Cp) : Bool := isLowerC c || isUpperC c

/-- `(?i)^[a-z0-9._%+-]+@[a-z0-9.-]+\.[a-z]{2,}$` -/
def emailRx : Rx :=
  rxSeq (rxClassPlus isEmailLocalC) <| rxSeq (rxLit 64) <|
    rxSeq (rxClassPlus isEmailDomainC) <| rxSeq (rxLit 46) <|
      rxSeq (rxClass isAlphaC) (rxClassPlus isAlphaC)

/-- `^(?:\d{4}[-\s]?){3}\d{4}$` -/
def ccRx : Rx :=
  rxSeq (rxRep (rxSeq (rxRep (rxClass isDigitC) 4)
                      (rxOpt (rxClass fun c => c == 45 || isWsC c))) 3)
        (rxRep (rxClass isDigitC) 4)

/-- `^\d{3}-\d{2}-\d{4}$` -/
def ssnRx : Rx :=
  rxSeq (rxRep (rxClass isDigitC) 3) <| rxSeq (rxLit 45) <|
    rxSeq (rxRep (rxClass isDigitC) 2) <| rxSeq (rxLit 45) <|
      rxRep (rxClass isDigitC) 4

/-- `25[0-5]|2[0-4][0-9]|[01]?[0-9][0-9]?` -/
def ipOctetRx : Rx :=
  rxAlt (rxSeq (rxLit 50) <| rxSeq (rxLit 53) <| rxClass fun c => 48 ≤ c && c ≤ 53) <|
    rxAlt (rxSeq (rxLit 50) <| rxSeq (rxClass fun c => 48 ≤ c && c ≤ 52) <|
             rxClass isDigitC)
      (rxSeq (rxOpt (rxClass fun c => c == 48 || c == 49)) <|
         rxSeq (rxClass isDigitC) (rxOpt (rxClass isDigitC)))

/-- `^(?:(?:25[0-5]|2[0-4][0-9]|[01]?[0-9][0-9]?)\.){3}(?:...)$` -/
def ipRx : Rx :=
  rxSeq (rxRep (rxSeq ipOctetRx (rxLit 46)) 3) ipOctetRx

/-- The date-of-birth pattern: four-two-two or two-two-four digit groups
joined by a dash or a forward slash (each separator independent). -/
def dobRx : Rx :=
  let sep := rxClass fun c => c == 45 || c == 47
  rxAlt
    (rxSeq (rxRep (rxClass isDigitC) 4) <| rxSeq sep <|
       rxSeq (rxRep (rxClass isDigitC) 2) <| rxSeq sep <|
         rxRep (rxClass isDigitC) 2)
    (rxSeq (rxRep (rxClass isDigitC) 2) <| rxSeq sep <|
       rxSeq (rxRep (rxClass isDigitC) 2) <| rxSeq sep <|
         rxRep (rxClass isDigitC) 4)

/-- `^(?:\+\d{1,3}[-.\s])?\(?(\d{3})\)?[-.\s]?\d{3}[-.\s]?\d{4}$` -/
def phoneRx : Rx :=
  let sep := rxClass fun c => c == 45 || c == 46 || isWsC c
  let d := rxClass isDigitC
  rxSeq (rxOpt (rxSeq (rxLit 43) <| rxSeq d <| rxSeq (rxOpt d) <| rxSeq (rxOpt d) sep)) <|
    rxSeq (rxOpt (rxLit 40)) <| rxSeq (rxRep d 3) <| rxSeq (rxOpt (rxLit 41)) <|
      rxSeq (rxOpt sep) <| rxSeq (rxRep d 3) <| rxSeq (rxOpt sep) <| rxRep d 4

/-- `^[A-Z]{1,2}\d{6,8}$` -/
def passportRx : Rx :=
  let d := rxClass isDigitC
  rxSeq (rxClass isUpperC) <| rxSeq (rxOpt (rxClass isUpperC)) <|
    rxSeq (rxRep d 6) <| rxSeq (rxOpt d) (rxOpt d)

inductive PiiType where
  | Email | CreditCard | Ssn | Phone | IpAddress | DateOfBirth | Passport
  deriving DecidableEq, Repr

/-- `PiiScanner::scan`: patterns evaluated in the source's fixed order,
first match wins. -/
def scan (s : List Cp) : Option PiiType :=
  if rxMatch emailRx s then some .Email
  else if rxMatch ccRx s then some .CreditCard
  else if rxMatch ssnRx s then some .Ssn
  else if rxMatch ipRx s then some .IpAddress
  else if rxMatch dobRx s then some .DateOfBirth
  else if rxMatch phoneRx s then some .Phone
  else if rxMatch passportRx s then some .Passport
  else none

/-! ## The masking engine (`src/interceptor.rs`) -/

/-- `pii_type_to_strategy` -/
def piiTypeToStrategy : PiiType → String
  | .Email => "email"
  | .CreditCard => "credit_card"
  | .Ssn => "ssn"
  | .Phone => "phone"
  | .IpAddress => "ip"
  | .DateOfBirth => "dob"
  | .Passport => "passport"

/-- The four generators of `generate_fake_data` that call into the
external `fake` crate (`SafeEmail`, `PhoneNumber`, `CityName`,
`CreditCardNumber`), each a deterministic function of the ChaCha8 seed.
Their outputs are strings, modelled as code-point lists. -/
structure FakeGen where
  email : Nat → List Cp
  phone : Nat → List Cp
  address : Nat → List Cp
  creditCard : Nat → List Cp

/-- `format!("XXX-XX-{:04}", n)` digits for `n < 10000`. -/
def pad4 (n : Nat) : List Cp :=
  [48 + n / 1000 % 10, 48 + n / 100 % 10, 48 + n / 10 % 10, 48 + n % 10]

/-- `generate_fake_data(strategy, seed)` -/
def generateFakeData (fg : FakeGen) (strategy : String) (seed : Nat) : List Cp :=
  match strategy with
  | "email" => fg.email seed
  | "phone" => fg.phone seed
  | "address" => fg.address seed
  | "credit_card" => fg.creditCard seed
  | "ssn" => asciiBytes "XXX-XX-" ++ pad4 (seed % 10000)
  | "ip" => asciiBytes "0.0.0.0"
  | "dob" => asciiBytes "1900-01-01"
  | "passport" => asciiBytes "XXXXXXXX"
  | _ => asciiBytes "MASKED"

/-- Unicode `White_Space`, as used by Rust's `str::trim`. -/
def isRustWs (c : Cp) : Bool :=
  c == 32 || (9 ≤ c && c ≤ 13) || c == 0x85 || c == 0xA0 || c == 0x1680 ||
    (0x2000 ≤ c && c ≤ 0x200A) || c == 0x2028 || c == 0x2029 ||
    c == 0x202F || c == 0x205F || c == 0x3000

/-- `str::trim` -/
def trimCp (cs : List Cp) : List Cp :=
  ((cs.dropWhile isRustWs).reverse.dropWhile isRustWs).reverse

/-- `str::replace` of the two-character pattern `[a, b]` by the single
character `r` (leftmost-first, non-overlapping). -/
def replacePair (a b r : Cp) : List Cp → List Cp
  | [] => []
  | [x] => [x]
  | x :: y :: rest =>
    if x == a && y == b then r :: replacePair a b r rest
    else x :: replacePair a b r (y :: rest)

/-- The element splitter of `mask_postgres_array`: split on top-level
commas, tracking `in_quotes` and `escaped` exactly as the source loop
does (the escape and quote characters are kept in the element). -/
def arraySplit (inQuotes escaped : Bool) (current : List Cp) :
    List Cp → List (List Cp)
  | [] => [current]
  | c :: rest =>
    if escaped then arraySplit inQuotes false (current ++ [c]) rest
    else if c == 92 then arraySplit inQuotes true (current ++ [c]) rest
    else if c == 34 then arraySplit (!inQuotes) false (current ++ [c]) rest
    else if c == 44 && !inQuotes then current :: arraySplit inQuotes false [] rest
    else arraySplit inQuotes false (current ++ [c]) rest

/-- One element of the array walk: returns the (possibly replaced)
element and whether it changed. -/
def maskArrayElem (fg : FakeGen) (elem : List Cp) : List Cp × Bool :=
  let t := trimCp elem
  let v :=
    if t.head? == some 34 && t.getLast? == some 34 && 2 ≤ t.length then
      (t.drop 1).dropLast
    else t
  let clean := replacePair 92 92 92 (replacePair 92 34 34 v)
  match scan clean with
  | some pii =>
    let fake := generateFakeData fg (piiTypeToStrategy pii)
        (defaultHashStr (utf8Encode clean))
    (34 :: fake ++ [34], true)
  | none => (elem, false)

/-- `mask_postgres_array` -/
def maskArray (fg : FakeGen) (raw : List Cp) : Option (List Cp) :=
  if raw.head? == some 123 && raw.getLast? == some 125 then
    let content := (raw.drop 1).dropLast
    let elems := arraySplit false false [] content
    let processed := elems.map (maskArrayElem fg)
    if processed.any (·.2) then
      some (123 :: (List.intercalate [44] (processed.map (·.1))) ++ [125])
    else none
  else none

/-- Context of one `Anonymizer`: the fake generators and the composite
`serde_json` oracle.  `jsonMasked val` models the sequence «UTF-8 check,
`serde_json::from_str`, `mask_json_recursively`, `serde_json::to_string`»
on the cell bytes, returning `none` exactly when parsing fails. -/
structure MaskCtx where
  fg : FakeGen
  jsonMasked : List Byte → Option (List Byte)

/-- The final masking step for a chosen non-JSON strategy: seed from
`DefaultHasher` over the raw cell bytes, then `generate_fake_data`. -/
def maskPlain (fg : FakeGen) (strat : String) (val : List Byte) : List Byte :=
  utf8Encode (generateFakeData fg strat (defaultHashBytes val))

/-- The heuristic arm of `Anonymizer::on_data_row` for one cell with no
explicit rule: the JSON look, then the Postgres-array fallback, then the
plain pattern scan. -/
def pgHeuristic (ctx : MaskCtx) (val : List Byte) : List Byte :=
  match utf8Decode val with
  | none => val
  | some cps =>
    let t := trimCp cps
    let scanned :=
      match scan cps with
      | some pii => maskPlain ctx.fg (piiTypeToStrategy pii) val
      | none => val
    if (t.head? == some 123 && t.getLast? == some 125) ||
        (t.head? == some 91 && t.getLast? == some 93) then
      match ctx.jsonMasked val with
      | some out => out
      | none =>
        if t.head? == some 123 && t.getLast? == some 125 then
          match maskArray ctx.fg cps with
          | some newCps => utf8Encode newCps
          | none => scanned
        else scanned
    else scanned

/-- One present cell of `Anonymizer::on_data_row` (Postgres). -/
def pgProcessCell (ctx : MaskCtx) (explicit : Option String) (val : List Byte) :
    List Byte :=
  match explicit with
  | some s =>
    if s = "json" then
      match (if isValidUtf8 val then ctx.jsonMasked val else none) with
      | some out => out
      | none => maskPlain ctx.fg s val
    else maskPlain ctx.fg s val
  | none => pgHeuristic ctx val

/-- One present cell of `MySqlAnonymizer::on_result_row` (no JSON/array
heuristics — only the explicit rule and the plain pattern scan). -/
def mysqlProcessCell (ctx : MaskCtx) (explicit : Option String) (val : List Byte) :
    List Byte :=
  match explicit with
  | some s =>
    if s = "json" then
      match (if isValidUtf8 val then ctx.jsonMasked val else none) with
      | some out => out
      | none => maskPlain ctx.fg s val
    else maskPlain ctx.fg s val
  | none =>
    match utf8Decode val with
    | none => val
    | some cps =>
      match scan cps with
      | some pii => maskPlain ctx.fg (piiTypeToStrategy pii) val
      | none => val

def mapWithIdx (f : Nat → α → β) : Nat → List α → List β
  | _, [] => []
  | i, x :: xs => f i x :: mapWithIdx f (i + 1) xs

/-- `target_cols` lookup: `.iter().find(|(col_idx, _)| *col_idx == i)`. -/
def stratAt (targetCols : List (Nat × String)) (i : Nat) : Option String :=
  (targetCols.find? (fun p => p.1 == i)).map Prod.snd

/-- `Anonymizer::on_data_row`: identity when masking is disabled;
otherwise every present cell is transformed in place and every null cell
is left null. -/
def pgOnDataRow (ctx : MaskCtx) (maskingEnabled : Bool)
    (targetCols : List (Nat × String)) (values : List (Option (List Byte))) :
    List (Option (List Byte)) :=
  if maskingEnabled then
    mapWithIdx (fun i v => v.map (pgProcessCell ctx (stratAt targetCols i))) 0 values
  else values

/-- `MySqlAnonymizer::on_result_row`. -/
def mysqlOnResultRow (ctx : MaskCtx) (maskingEnabled : Bool)
    (targetCols : List (Nat × String)) (values : List (Option (List Byte))) :
    List (Option (List Byte)) :=
  if maskingEnabled then
    mapWithIdx (fun i v => v.map (mysqlProcessCell ctx (stratAt targetCols i))) 0 values
  else values

/-! ## Masking rules (`config::MaskingRule`, rule selection in
`on_row_description` / `on_column_definition`) -/

structure MaskingRule where
  table : Option String
  column : String
  strategy : String
  deriving DecidableEq, Repr

/-- Rule applicability in `MySqlAnonymizer::on_column_definition`: the
table constraint is checked against the column definition's table. -/
def mysqlRuleMatches (r : MaskingRule) (colName tableName : String) : Bool :=
  (match r.table with
   | none => true
   | some t => t == tableName) && r.column == colName

/-- Rule applicability in `Anonymizer::on_row_description`: the table
constraint always passes (`is_none_or(|_t| true)`) — Postgres cannot
resolve the table OID to a name. -/
def pgRuleMatches (r : MaskingRule) (colName : String) : Bool :=
  r.column == colName

/-- First-match strategy selection for a MySQL column. -/
def mysqlSelect (rules : List MaskingRule) (colName tableName : String) :
    Option String :=
  (rules.find? (fun r => mysqlRuleMatches r colName tableName)).map (·.strategy)

/-- First-match strategy selection for a Postgres column. -/
def pgSelect (rules : List MaskingRule) (colName : String) : Option String :=
  (rules.find? (fun r => pgRuleMatches r colName)).map (·.strategy)

/-- A concrete instantiation of the external generators, for closed
witnesses and counterexamples (the claims settled with it do not depend
on the generators' outputs). -/
def constFakeGen : FakeGen :=
  ⟨fun _ => asciiBytes "x@example.org", fun _ => asciiBytes "555-0100",
   fun _ => asciiBytes "Springfield", fun _ => asciiBytes "4111111111111111"⟩

/-- A concrete context whose JSON oracle always fails to parse. -/
def constCtx : MaskCtx := ⟨constFakeGen, fun _ => none⟩

/-! ## Byte-stream parsing primitives

The `bytes`-crate reading discipline: `get_u8`/`get_u16`/`get_u32`/
`advance`/`split_to`/`copy_to_slice` all panic when the buffer is too
short — modelled by the `crash` outcome.  `anyhow` errors returned with
`?` are the `err` outcome. -/

inductive PRes (α : Type) where
  | ok (a : α) (rest : List Byte)
  | err
  | crash
  deriving Repr, DecidableEq

/-- A parser over a byte buffer. -/
def Pm (α : Type) : Type := List Byte → PRes α

def ppure (a : α) : Pm α := fun s => .ok a s

def pbind (p : Pm α) (f : α → Pm β) : Pm β := fun s =>
  match p s with
  | .ok a r => f a r
  | .err => .err
  | .crash => .crash

def pmap (p : Pm α) (f : α → β) : Pm β := pbind p fun a => ppure (f a)

/-- `split_to(n)` / `copy_to_slice` of `n` bytes. -/
def takeN (n : Nat) : Pm (List Byte) := fun s =>
  if n ≤ s.length then .ok (s.take n) (s.drop n) else .crash

/-- `advance(n)`. -/
def skipN (n : Nat) : Pm Unit := fun s =>
  if n ≤ s.length then .ok () (s.drop n) else .crash

def getU8 : Pm Nat := fun s =>
  match s with
  | [] => .crash
  | b :: r => .ok b r

def getU16be : Pm Nat := fun s =>
  match s with
  | b0 :: b1 :: r => .ok (b0 * 256 + b1) r
  | _ => .crash

def getU32be : Pm Nat := fun s =>
  match s with
  | b0 :: b1 :: b2 :: b3 :: r =>
    .ok (((b0 * 256 + b1) * 256 + b2) * 256 + b3) r
  | _ => .crash

/-- Two's complement encoding of an `Int` into `w` bits. -/
def toTwos (w : Nat) (i : Int) : Nat := (i % ((2 ^ w : Nat) : Int)).toNat

/-- Two's complement reading of `w` bits. -/
def fromTwos (w : Nat) (n : Nat) : Int :=
  if n < 2 ^ (w - 1) then (n : Int) else (n : Int) - ((2 ^ w : Nat) : Int)

def getI16be : Pm Int := pmap getU16be (fromTwos 16)
def getI32be : Pm Int := pmap getU32be (fromTwos 32)

/-- Big-endian writers (`put_u16` / `put_u32`; the value is reduced the
way the `as u16` / `as u32` casts in the source would reduce it). -/
def beBytes2 (n : Nat) : List Byte := [n / 256 % 256, n % 256]
def beBytes4 (n : Nat) : List Byte :=
  [n / 16777216 % 256, n / 65536 % 256, n / 256 % 256, n % 256]

/-- `read_cstring_bytes` of `postgres.rs`: bytes up to (not including)
the first NUL; an `anyhow` error when no NUL terminator exists. -/
def readCStringBytes : Pm (List Byte) := fun s =>
  match s with
  | [] => .err
  | b :: r =>
    if b = 0 then .ok [] r
    else
      match readCStringBytes r with
      | .ok bs rest => .ok (b :: bs) rest
      | .err => .err
      | .crash => .crash

/-- `read_cstring` of `postgres.rs` / `read_null_terminated_string` of
`mysql.rs`: the C-string must additionally be valid UTF-8
(`String::from_utf8` propagated with `?`).  The string is modelled by
its byte content. -/
def readCString : Pm (List Byte) := fun s =>
  match readCStringBytes s with
  | .ok bs rest => if isValidUtf8 bs then .ok bs rest else .err
  | .err => .err
  | .crash => .crash

/-! ## The PostgreSQL codec (`src/protocol/postgres.rs`) -/

structure FieldDescription where
  name : List Byte
  tableOid : Nat
  columnIndex : Nat
  typeOid : Nat
  typeLen : Int
  typeModifier : Int
  formatCode : Int
  deriving DecidableEq, Repr

inductive PgMessage where
  | startup (protocolVersion : Nat) (parameters : List (List Byte × List Byte))
  | sslRequest
  | query (q : List Byte)
  | parseMsg (statement : List Byte) (q : List Byte) (paramTypes : List Nat)
  | rowDescription (fields : List FieldDescription)
  | dataRow (values : List (Option (List Byte)))
  | regular (messageType : Byte) (payload : List Byte)
  deriving DecidableEq, Repr

/-- The startup parameter loop: null-terminated key/value pairs until an
empty key (or until the buffer runs out).  Each iteration consumes at
least one byte, so `fuel = buf.length + 1` makes the fuel irrelevant. -/
def parseParamsAux (fuel : Nat) (buf : List Byte) :
    PRes (List (List Byte × List Byte)) :=
  match fuel with
  | 0 => .crash
  | fuel + 1 =>
    match buf with
    | [] => .ok [] []
    | _ =>
      match readCString buf with
      | .ok key rest =>
        if key = [] then .ok [] rest
        else
          match readCString rest with
          | .ok v rest2 =>
            match parseParamsAux fuel rest2 with
            | .ok ps r => .ok ((key, v) :: ps) r
            | .err => .err
            | .crash => .crash
          | .err => .err
          | .crash => .crash
      | .err => .err
      | .crash => .crash

/-- The `RowDescription` field loop. -/
def parseFields : Nat → Pm (List FieldDescription)
  | 0 => ppure []
  | n + 1 =>
    pbind readCStringBytes fun name =>
    pbind getU32be fun tOid =>
    pbind getU16be fun colIdx =>
    pbind getU32be fun tyOid =>
    pbind getI16be fun tyLen =>
    pbind getI32be fun tyMod =>
    pbind getI16be fun fmt =>
    pmap (parseFields n) (fun fs => ⟨name, tOid, colIdx, tyOid, tyLen, tyMod, fmt⟩ :: fs)

/-- The `DataRow` cell loop: `-1` is null; any other negative length is
cast to a huge `usize` and `split_to` panics; an overlong declared
length panics as well. -/
def parseCells : Nat → Pm (List (Option (List Byte)))
  | 0 => ppure []
  | n + 1 =>
    pbind getI32be fun len =>
      if len = -1 then pmap (parseCells n) (fun vs => none :: vs)
      else if len < 0 then fun _ => .crash
      else pbind (takeN len.toNat) fun v => pmap (parseCells n) (fun vs => some v :: vs)

def parseParamTypes : Nat → Pm (List Nat)
  | 0 => ppure []
  | n + 1 => pbind getU32be fun t => pmap (parseParamTypes n) (fun ts => t :: ts)

/-- The `Parse` ('P') message body. -/
def parseParseBody : Pm PgMessage :=
  pbind readCStringBytes fun st =>
  pbind readCStringBytes fun q =>
  pbind getU16be fun n =>
  pmap (parseParamTypes n) (fun pts => .parseMsg st q pts)

inductive PgOut where
  | needMore
  | msg (m : PgMessage)
  | errOut
  | crash
  deriving DecidableEq, Repr

def pgRunBody (p : Pm α) (f : α → PgMessage) (data : List Byte) : PgOut :=
  match p data with
  | .ok a _ => .msg (f a)
  | .err => .errOut
  | .crash => .crash

/-- `PostgresCodec::decode` in startup mode (`is_startup = true`).
Returns the decode outcome, the new `is_startup` flag, and the bytes
left in the input buffer. -/
def pgDecodeStartup (src : List Byte) : PgOut × Bool × List Byte :=
  if src.length < 4 then (.needMore, true, src)
  else
    let length := ((src.take 4).foldl (fun acc b => acc * 256 + b) 0)
    if src.length < length then (.needMore, true, src)
    else
      let rest := src.drop length
      -- data.advance(4) panics when the frame is shorter than 4 bytes
      if length < 4 then (.crash, true, rest)
      else
        let d1 := (src.take length).drop 4
        -- get_u32 panics when fewer than 4 bytes remain
        if d1.length < 4 then (.crash, true, rest)
        else
          let ver := (d1.take 4).foldl (fun acc b => acc * 256 + b) 0
          let d2 := d1.drop 4
          if ver = 80877103 then (.msg .sslRequest, true, rest)
          else
            match parseParamsAux (d2.length + 1) d2 with
            | .ok ps _ => (.msg (.startup ver ps), false, rest)
            | .err => (.errOut, true, rest)
            | .crash => (.crash, true, rest)

/-- `PostgresCodec::decode` in regular mode: type byte, big-endian
length (excluding the type byte), then the typed payload dispatch. -/
def pgDecodeRegular (src : List Byte) : PgOut × List Byte :=
  match src with
  | t :: b1 :: b2 :: b3 :: b4 :: _ =>
    let length := ((b1 * 256 + b2) * 256 + b3) * 256 + b4
    let frameLen := 1 + length
    if src.length < frameLen then (.needMore, src)
    else
      let rest := src.drop frameLen
      -- data.advance(5) panics when the frame is shorter than 5 bytes
      if length < 4 then (.crash, rest)
      else
        let data := (src.take frameLen).drop 5
        let out :=
          if t = 84 then pgRunBody (pbind getU16be parseFields) .rowDescription data
          else if t = 68 then pgRunBody (pbind getU16be parseCells) .dataRow data
          else if t = 81 then pgRunBody readCStringBytes .query data
          else if t = 80 then pgRunBody parseParseBody id data
          else .msg (.regular t data)
        (out, rest)
  | _ => (.needMore, src)

/-- `PostgresCodec::decode`: one step of the stateful decoder. -/
def pgDecode (isStartup : Bool) (src : List Byte) : PgOut × Bool × List Byte :=
  if isStartup then pgDecodeStartup src
  else
    match pgDecodeRegular src with
    | (o, rest) => (o, false, rest)

/-- `k\0v\0` pairs of the Startup body. -/
def encodeParams (ps : List (List Byte × List Byte)) : List Byte :=
  ps.flatMap (fun kv => kv.1 ++ [0] ++ kv.2 ++ [0])

def encodeField (f : FieldDescription) : List Byte :=
  f.name ++ [0] ++ beBytes4 f.tableOid ++ beBytes2 f.columnIndex ++
    beBytes4 f.typeOid ++ beBytes2 (toTwos 16 f.typeLen) ++
    beBytes4 (toTwos 32 f.typeModifier) ++ beBytes2 (toTwos 16 f.formatCode)

def encodeCell : Option (List Byte) → List Byte
  | none => beBytes4 (toTwos 32 (-1))
  | some v => beBytes4 v.length ++ v

/-- `impl Encoder<PgMessage> for PostgresCodec`: every length field is
recomputed from the content being written. -/
def pgEncode : PgMessage → List Byte
  | .startup ver ps =>
    let body := encodeParams ps ++ [0]
    beBytes4 (4 + 4 + body.length) ++ beBytes4 ver ++ body
  | .sslRequest => beBytes4 8 ++ beBytes4 80877103
  | .rowDescription fs =>
    let body := beBytes2 fs.length ++ fs.flatMap encodeField
    84 :: (beBytes4 (4 + body.length) ++ body)
  | .dataRow vs =>
    let body := beBytes2 vs.length ++ vs.flatMap encodeCell
    68 :: (beBytes4 (4 + body.length) ++ body)
  | .query q => 81 :: (beBytes4 (4 + q.length + 1) ++ q ++ [0])
  | .parseMsg st q pts =>
    80 :: (beBytes4 (4 + st.length + 1 + q.length + 1 + 2 + 4 * pts.length) ++
      st ++ [0] ++ q ++ [0] ++ beBytes2 pts.length ++ pts.flatMap beBytes4)
  | .regular t payload => t :: (beBytes4 (payload.length + 4) ++ payload)

/-! Well-formedness: the conditions under which a message value survives
the `as u16`/`as u32`/`as i32` casts and the C-string / UTF-8 framing of
the encoder, so that decoding can restore it. -/

def wfParam (kv : List Byte × List Byte) : Prop :=
  kv.1 ≠ [] ∧ (0 : Nat) ∉ kv.1 ∧ (0 : Nat) ∉ kv.2 ∧
    isValidUtf8 kv.1 = true ∧ isValidUtf8 kv.2 = true

def wfField (f : FieldDescription) : Prop :=
  (0 : Nat) ∉ f.name ∧ f.tableOid < 2 ^ 32 ∧ f.columnIndex < 2 ^ 16 ∧
    f.typeOid < 2 ^ 32 ∧ -2 ^ 15 ≤ f.typeLen ∧ f.typeLen < 2 ^ 15 ∧
    -2 ^ 31 ≤ f.typeModifier ∧ f.typeModifier < 2 ^ 31 ∧
    -2 ^ 15 ≤ f.formatCode ∧ f.formatCode < 2 ^ 15

def pgWf : PgMessage → Prop
  | .startup ver ps =>
    ver < 2 ^ 32 ∧ ver ≠ 80877103 ∧ (∀ kv ∈ ps, wfParam kv) ∧
      (encodeParams ps).length + 9 < 2 ^ 32
  | .sslRequest => True
  | .query q => (0 : Nat) ∉ q ∧ q.length + 5 < 2 ^ 32
  | .parseMsg st q pts =>
    (0 : Nat) ∉ st ∧ (0 : Nat) ∉ q ∧ pts.length < 2 ^ 16 ∧
      (∀ p ∈ pts, p < 2 ^ 32) ∧
      4 + st.length + 1 + q.length + 1 + 2 + 4 * pts.length < 2 ^ 32
  | .rowDescription fs =>
    fs.length < 2 ^ 16 ∧ (∀ f ∈ fs, wfField f) ∧
      4 + (beBytes2 fs.length ++ fs.flatMap encodeField).length < 2 ^ 32
  | .dataRow vs =>
    vs.length < 2 ^ 16 ∧ (∀ v ∈ vs, ∀ b ∈ v, List.length b < 2 ^ 31) ∧
      4 + (beBytes2 vs.length ++ vs.flatMap encodeCell).length < 2 ^ 32
  | .regular t payload =>
    t < 256 ∧ t ≠ 84 ∧ t ≠ 68 ∧ t ≠ 81 ∧ t ≠ 80 ∧ payload.length + 4 < 2 ^ 32

/-- The codec mode in which each encoded message is decoded back:
Startup and SSLRequest arrive in startup mode, all others in regular
mode. -/
def pgModeOf : PgMessage → Bool
  | .startup _ _ => true
  | .sslRequest => true
  | _ => false

/-- The `is_startup` flag after a successful decode of each variant. -/
def pgFlagAfter : PgMessage → Bool
  | .startup _ _ => false
  | .sslRequest => true
  | _ => false

/-! ## The MySQL codec (`src/protocol/mysql.rs`) -/

def clientProtocol41 : Nat := 2 ^ 9
def clientSecureConnection : Nat := 2 ^ 15
def clientPluginAuth : Nat := 2 ^ 19
def clientDeprecateEof : Nat := 2 ^ 24

def hasFlag (caps flag : Nat) : Bool := caps &&& flag != 0

inductive MySqlState where
  | waitingHandshake
  | waitingHandshakeResponse
  | command
  | readingColumns (remaining : Nat)
  | readingRows
  deriving DecidableEq, Repr

structure MyCodec where
  state : MySqlState
  capabilityFlags : Nat
  isClientSide : Bool
  columnCount : Nat
  deriving DecidableEq, Repr

def MyCodec.newServer : MyCodec := ⟨.waitingHandshake, 0, false, 0⟩
def MyCodec.newClient : MyCodec := ⟨.waitingHandshake, 0, true, 0⟩

structure HandshakeV10 where
  protocolVersion : Nat
  serverVersion : List Byte
  connectionId : Nat
  authPluginData1 : List Byte
  capabilityFlags : Nat
  characterSet : Nat
  statusFlags : Nat
  authPluginData2 : List Byte
  authPluginName : List Byte
  deriving DecidableEq, Repr

structure HandshakeResponse where
  capabilityFlags : Nat
  maxPacketSize : Nat
  characterSet : Nat
  username : List Byte
  authResponse : List Byte
  database : Option (List Byte)
  authPluginName : Option (List Byte)
  deriving DecidableEq, Repr

structure OkPacket where
  sequenceId : Nat
  affectedRows : Nat
  lastInsertId : Nat
  statusFlags : Nat
  warnings : Nat
  info : List Byte
  deriving DecidableEq, Repr

structure ErrPacket where
  sequenceId : Nat
  errorCode : Nat
  sqlState : List Byte
  errorMessage : List Cp
  deriving DecidableEq, Repr

structure EofPacket where
  sequenceId : Nat
  warnings : Nat
  statusFlags : Nat
  deriving DecidableEq, Repr

structure ColumnDefinition where
  sequenceId : Nat
  catalog : List Byte
  schema : List Byte
  table : List Byte
  orgTable : List Byte
  name : List Byte
  orgName : List Byte
  characterSet : Nat
  columnLength : Nat
  columnType : Nat
  flags : Nat
  decimals : Nat
  deriving DecidableEq, Repr

inductive MySqlMessage where
  | handshake (h : HandshakeV10)
  | handshakeResponse (r : HandshakeResponse)
  | generic (sequenceId : Nat) (payload : List Byte)
  | query (sequenceId : Nat) (q : List Byte)
  | columnDefinition (c : ColumnDefinition)
  | resultRow (sequenceId : Nat) (values : List (Option (List Byte)))
  | ok (o : OkPacket)
  | err (e : ErrPacket)
  | eof (e : EofPacket)
  deriving DecidableEq, Repr

/-- `String::from_utf8_lossy`, producing the scalar values of the
resulting string: each maximal ill-formed subsequence prefix becomes one
U+FFFD replacement character, restarting at the first offending byte. -/
def utf8LossyCps : List Byte → List Cp
  | [] => []
  | b :: rest =>
    if b < 0x80 then b :: utf8LossyCps rest
    else if b < 0xC2 then 0xFFFD :: utf8LossyCps rest
    else if b < 0xE0 then
      match rest with
      | c1 :: rest1 =>
        if contByte c1 then ((b - 0xC0) * 64 + (c1 - 0x80)) :: utf8LossyCps rest1
        else 0xFFFD :: utf8LossyCps (c1 :: rest1)
      | [] => [0xFFFD]
    else if b < 0xF0 then
      match rest with
      | c1 :: rest1 =>
        let lo1 : Byte := if b = 0xE0 then 0xA0 else 0x80
        let hi1 : Byte := if b = 0xED then 0xA0 else 0xC0
        if lo1 ≤ c1 && c1 < hi1 then
          match rest1 with
          | c2 :: rest2 =>
            if contByte c2 then
              ((b - 0xE0) * 4096 + (c1 - 0x80) * 64 + (c2 - 0x80)) :: utf8LossyCps rest2
            else 0xFFFD :: utf8LossyCps (c2 :: rest2)
          | [] => [0xFFFD]
        else 0xFFFD :: utf8LossyCps (c1 :: rest1)
      | [] => [0xFFFD]
    else if b < 0xF5 then
      match rest with
      | c1 :: rest1 =>
        let lo1 : Byte := if b = 0xF0 then 0x90 else 0x80
        let hi1 : Byte := if b = 0xF4 then 0x90 else 0xC0
        if lo1 ≤ c1 && c1 < hi1 then
          match rest1 with
          | c2 :: rest2 =>
            if contByte c2 then
              match rest2 with
              | c3 :: rest3 =>
                if contByte c3 then
                  ((b - 0xF0) * 262144 + (c1 - 0x80) * 4096 +
                    (c2 - 0x80) * 64 + (c3 - 0x80)) :: utf8LossyCps rest3
                else 0xFFFD :: utf8LossyCps (c3 :: rest3)
              | [] => [0xFFFD]
            else 0xFFFD :: utf8LossyCps (c2 :: rest2)
          | [] => [0xFFFD]
        else 0xFFFD :: utf8LossyCps (c1 :: rest1)
      | [] => [0xFFFD]
    else 0xFFFD :: utf8LossyCps rest

/-! Little-endian readers. -/

def getU16le : Pm Nat := fun s =>
  match s with
  | b0 :: b1 :: r => .ok (b0 + 256 * b1) r
  | _ => .crash

def getU32le : Pm Nat := fun s =>
  match s with
  | b0 :: b1 :: b2 :: b3 :: r =>
    .ok (b0 + 256 * (b1 + 256 * (b2 + 256 * b3))) r
  | _ => .crash

/-- `read_lenenc_int` (+ `read_lenenc_int_from_buf`): length-encoded
integer; `0xfb` is 0 (NULL marker), `0xff` and truncated forms are
`anyhow` errors. -/
def getLenencInt : Pm Nat := fun s =>
  match s with
  | [] => .err
  | b :: r =>
    if b ≤ 0xfa then .ok b r
    else if b = 0xfb then .ok 0 r
    else if b = 0xfc then
      match r with
      | x :: y :: r2 => .ok (x + 256 * y) r2
      | _ => .err
    else if b = 0xfd then
      match r with
      | x :: y :: z :: r3 => .ok (x + 256 * y + 65536 * z) r3
      | _ => .err
    else if b = 0xfe then
      (if 8 ≤ r.length then .ok (leWord (r.take 8)) (r.drop 8) else .err)
    else .err

/-- `read_lenenc_string`. -/
def getLenencString : Pm (List Byte) :=
  pbind getLenencInt fun len => fun s =>
    if s.length < len then .err else .ok (s.take len) (s.drop len)

/-- `read_null_terminated_string` used through `.ok().unwrap_or_default()`:
total; on a missing NUL the buffer is unchanged, on invalid UTF-8 the
bytes before the NUL are consumed but the NUL remains. -/
def readStrOrEmpty (buf : List Byte) : List Byte × List Byte :=
  if (0 : Nat) ∈ buf then
    let pre := buf.takeWhile (· ≠ 0)
    let rest := buf.dropWhile (· ≠ 0)
    if isValidUtf8 pre then (pre, rest.drop 1) else ([], rest)
  else ([], buf)

/-- `parse_handshake_v10` -/
def parseHandshakeV10 : Pm HandshakeV10 :=
  pbind getU8 fun pv =>
  pbind readCString fun sv =>
  pbind getU32le fun cid =>
  pbind (takeN 8) fun apd1 =>
  pbind (skipN 1) fun _ =>
  pbind getU16le fun capl =>
  pbind getU8 fun cs =>
  pbind getU16le fun st =>
  pbind getU16le fun capu =>
  pbind getU8 fun apdl =>
  pbind (skipN 10) fun _ => fun buf =>
    let caps := capl ||| (capu <<< 16)
    let part2Len := if hasFlag caps clientSecureConnection then max 13 (apdl - 8) else 0
    let (apd2, buf2) :=
      if 0 < part2Len ∧ part2Len ≤ buf.length then
        ((buf.take part2Len).takeWhile (· ≠ 0), buf.drop part2Len)
      else ([], buf)
    let name :=
      if hasFlag caps clientPluginAuth ∧ buf2 ≠ [] then
        match readCString buf2 with
        | .ok n _ => n
        | _ => []
      else []
    .ok ⟨pv, sv, cid, apd1, caps, cs, st, apd2, name⟩ []

/-- `parse_handshake_response` -/
def parseHandshakeResponse : Pm HandshakeResponse :=
  pbind getU32le fun caps =>
  pbind getU32le fun mps =>
  pbind getU8 fun cs =>
  pbind (skipN 23) fun _ =>
  pbind readCString fun username => fun buf =>
    let step1 : PRes (List Byte) :=
      if hasFlag caps clientSecureConnection then
        match buf with
        | [] => .crash
        | l :: r => if l ≤ r.length then .ok (r.take l) (r.drop l) else .crash
      else
        let pre := buf.takeWhile (· ≠ 0)
        let rest := buf.dropWhile (· ≠ 0)
        .ok pre (if rest = [] then [] else rest.drop 1)
    match step1 with
    | .ok ar buf2 =>
      let (db, buf3) :=
        if buf2 ≠ [] then
          let (s, r) := readStrOrEmpty buf2
          (some s, r)
        else (none, buf2)
      let plugin :=
        if hasFlag caps clientPluginAuth ∧ buf3 ≠ [] then
          some (readStrOrEmpty buf3).1
        else none
      .ok ⟨caps, mps, cs, username, ar, db, plugin⟩ []
    | .err => .err
    | .crash => .crash

/-- `parse_ok_packet` -/
def parseOkPacket (seq caps : Nat) : Pm OkPacket :=
  pbind (skipN 1) fun _ =>
  pbind getLenencInt fun ar =>
  pbind getLenencInt fun lid => fun buf =>
    if hasFlag caps clientProtocol41 then
      (pbind getU16le fun st => pbind getU16le fun w => fun info =>
        .ok ⟨seq, ar, lid, st, w, info⟩ []) buf
    else .ok ⟨seq, ar, lid, 0, 0, buf⟩ []

/-- `parse_err_packet` -/
def parseErrPacket (seq caps : Nat) : Pm ErrPacket :=
  pbind (skipN 1) fun _ =>
  pbind getU16le fun code => fun buf =>
    if hasFlag caps clientProtocol41 then
      (pbind (skipN 1) fun _ => pbind (takeN 5) fun st => fun msg =>
        .ok ⟨seq, code, st, utf8LossyCps msg⟩ []) buf
    else .ok ⟨seq, code, [0, 0, 0, 0, 0], utf8LossyCps buf⟩ []

/-- `parse_eof_packet` -/
def parseEofPacket (seq : Nat) : Pm EofPacket :=
  pbind (skipN 1) fun _ => fun buf =>
    match buf with
    | b0 :: b1 :: r =>
      (match r with
       | c0 :: c1 :: _ => .ok ⟨seq, b0 + 256 * b1, c0 + 256 * c1⟩ []
       | _ => .ok ⟨seq, b0 + 256 * b1, 0⟩ [])
    | _ => .ok ⟨seq, 0, 0⟩ []

/-- `parse_column_definition` -/
def parseColumnDefinition (seq : Nat) : Pm ColumnDefinition :=
  pbind getLenencString fun catalog =>
  pbind getLenencString fun schema =>
  pbind getLenencString fun table =>
  pbind getLenencString fun orgTable =>
  pbind getLenencString fun name =>
  pbind getLenencString fun orgName =>
  pbind (skipN 1) fun _ =>
  pbind getU16le fun cs =>
  pbind getU32le fun clen =>
  pbind getU8 fun ctype =>
  pbind getU16le fun flags =>
  pbind getU8 fun dec =>
  pbind (skipN 2) fun _ => fun _ =>
    .ok ⟨seq, catalog, schema, table, orgTable, name, orgName, cs, clen, ctype, flags, dec⟩ []

/-- `parse_result_row`: always reads `columnCount` values; an exhausted
buffer or an overlong declared cell length silently yields NULL, while
an invalid or truncated length-encoded header is an `anyhow` error. -/
def parseResultRow (count : Nat) (buf : List Byte) :
    PRes (List (Option (List Byte))) :=
  match count with
  | 0 => .ok [] buf
  | n + 1 =>
    match buf with
    | [] =>
      match parseResultRow n [] with
      | .ok vs r => .ok (none :: vs) r
      | .err => .err
      | .crash => .crash
    | b :: rest =>
      if b = 0xfb then
        match parseResultRow n rest with
        | .ok vs r => .ok (none :: vs) r
        | .err => .err
        | .crash => .crash
      else
        match getLenencInt (b :: rest) with
        | .ok len after =>
          if len ≤ after.length then
            match parseResultRow n (after.drop len) with
            | .ok vs r => .ok (some (after.take len) :: vs) r
            | .err => .err
            | .crash => .crash
          else
            match parseResultRow n after with
            | .ok vs r => .ok (none :: vs) r
            | .err => .err
            | .crash => .crash
        | .err => .err
        | .crash => .crash

inductive MyOut where
  | needMore
  | msg (m : MySqlMessage)
  | errOut
  | crash
  deriving DecidableEq, Repr

/-- `MySqlCodec::decode`: header split, then the per-state dispatch.
Returns the outcome, the updated codec and the remaining input. -/
def myDecode (c : MyCodec) (src : List Byte) : MyOut × MyCodec × List Byte :=
  match src with
  | l0 :: l1 :: l2 :: seq :: rest0 =>
    let payloadLen := l0 + 256 * l1 + 65536 * l2
    if src.length < 4 + payloadLen then (.needMore, c, src)
    else
      let packet := rest0.take payloadLen
      let rest := rest0.drop payloadLen
      match c.state with
      | .waitingHandshake =>
        if c.isClientSide then
          match parseHandshakeV10 packet with
          | .ok h _ => (.msg (.handshake h), { c with state := .waitingHandshakeResponse }, rest)
          | .err => (.errOut, c, rest)
          | .crash => (.crash, c, rest)
        else (.msg (.generic seq packet), c, rest)
      | .waitingHandshakeResponse =>
        if !c.isClientSide then
          match parseHandshakeResponse packet with
          | .ok r _ =>
            (.msg (.handshakeResponse r),
             { c with state := .command, capabilityFlags := r.capabilityFlags }, rest)
          | .err => (.errOut, c, rest)
          | .crash => (.crash, c, rest)
        else
          match packet with
          | [] => (.crash, c, rest)
          | b :: _ =>
            if b = 0x00 then
              match parseOkPacket seq c.capabilityFlags packet with
              | .ok o _ => (.msg (.ok o), { c with state := .command }, rest)
              | .err => (.errOut, c, rest)
              | .crash => (.crash, c, rest)
            else if b = 0xff then
              match parseErrPacket seq c.capabilityFlags packet with
              | .ok e _ => (.msg (.err e), c, rest)
              | .err => (.errOut, c, rest)
              | .crash => (.crash, c, rest)
            else (.msg (.generic seq packet), { c with state := .command }, rest)
      | .command =>
        match packet with
        | [] => (.msg (.generic seq packet), c, rest)
        | b :: body =>
          if !c.isClientSide ∧ b = 0x03 then
            (.msg (.query seq body), c, rest)
          else if c.isClientSide ∧ b ≠ 0x00 ∧ b ≠ 0xff ∧ b ≠ 0xfe then
            match getLenencInt packet with
            | .ok colCount _ =>
              if 0 < colCount ∧ colCount < 1000 then
                (.msg (.generic seq packet),
                 { c with columnCount := colCount, state := .readingColumns colCount }, rest)
              else
                -- fall through to the OK/ERR/EOF/Generic checks below
                (.msg (.generic seq packet), c, rest)
            | .err => (.errOut, c, rest)
            | .crash => (.crash, c, rest)
          else if b = 0x00 then
            match parseOkPacket seq c.capabilityFlags packet with
            | .ok o _ => (.msg (.ok o), c, rest)
            | .err => (.errOut, c, rest)
            | .crash => (.crash, c, rest)
          else if b = 0xff then
            match parseErrPacket seq c.capabilityFlags packet with
            | .ok e _ => (.msg (.err e), c, rest)
            | .err => (.errOut, c, rest)
            | .crash => (.crash, c, rest)
          else if b = 0xfe ∧ packet.length < 9 then
            match parseEofPacket seq packet with
            | .ok e _ => (.msg (.eof e), c, rest)
            | .err => (.errOut, c, rest)
            | .crash => (.crash, c, rest)
          else (.msg (.generic seq packet), c, rest)
      | .readingColumns remaining =>
        match packet with
        | [] => (.crash, c, rest)
        | b :: _ =>
          if b = 0xfe ∧ packet.length < 9 ∧ !hasFlag c.capabilityFlags clientDeprecateEof then
            match parseEofPacket seq packet with
            | .ok e _ => (.msg (.eof e), { c with state := .readingRows }, rest)
            | .err => (.errOut, c, rest)
            | .crash => (.crash, c, rest)
          else
            match parseColumnDefinition seq packet with
            | .ok cd _ =>
              let newRemaining := remaining - 1
              let c' :=
                if newRemaining = 0 then
                  if hasFlag c.capabilityFlags clientDeprecateEof then
                    { c with state := .readingRows }
                  else c
                else { c with state := .readingColumns newRemaining }
              (.msg (.columnDefinition cd), c', rest)
            | .err => (.errOut, c, rest)
            | .crash => (.crash, c, rest)
      | .readingRows =>
        match packet with
        | [] => (.crash, c, rest)
        | b :: _ =>
          if b = 0xfe ∧ packet.length < 9 then
            match parseEofPacket seq packet with
            | .ok e _ => (.msg (.eof e), { c with state := .command }, rest)
            | .err => (.errOut, c, rest)
            | .crash => (.crash, c, rest)
          else if b = 0x00 ∧ hasFlag c.capabilityFlags clientDeprecateEof then
            match parseOkPacket seq c.capabilityFlags packet with
            | .ok o _ => (.msg (.ok o), { c with state := .command }, rest)
            | .err => (.errOut, c, rest)
            | .crash => (.crash, c, rest)
          else if b = 0xff then
            match parseErrPacket seq c.capabilityFlags packet with
            | .ok e _ => (.msg (.err e), { c with state := .command }, rest)
            | .err => (.errOut, c, rest)
            | .crash => (.crash, c, rest)
          else
            match parseResultRow c.columnCount packet with
            | .ok vs _ => (.msg (.resultRow seq vs), c, rest)
            | .err => (.errOut, c, rest)
            | .crash => (.crash, c, rest)
  | _ => (.needMore, c, src)

/-! Encoders. -/

/-- `write_packet_header`: 3-byte little-endian payload length, 1-byte
sequence id. -/
def packetHeader (payloadLen seq : Nat) : List Byte :=
  [payloadLen % 256, payloadLen / 256 % 256, payloadLen / 65536 % 256, seq % 256]

/-- `write_lenenc_int` (minimal form). -/
def writeLenencInt (v : Nat) : List Byte :=
  if v < 251 then [v]
  else if v < 65536 then [0xfc, v % 256, v / 256 % 256]
  else if v < 16777216 then [0xfd, v % 256, v / 256 % 256, v / 65536 % 256]
  else 0xfe :: leBytes 8 v

def writeLenencString (s : List Byte) : List Byte := writeLenencInt s.length ++ s

def leBytes2 (n : Nat) : List Byte := leBytes 2 n
def leBytes4 (n : Nat) : List Byte := leBytes 4 n

def encodeHandshakeV10 (h : HandshakeV10) : List Byte :=
  let payload :=
    [h.protocolVersion % 256] ++ h.serverVersion ++ [0] ++
      leBytes4 h.connectionId ++ h.authPluginData1 ++ [0] ++
      leBytes2 (h.capabilityFlags &&& 0xffff) ++ [h.characterSet % 256] ++
      leBytes2 h.statusFlags ++ leBytes2 ((h.capabilityFlags >>> 16) &&& 0xffff) ++
      [(h.authPluginData2.length + 8 + 1) % 256] ++
      List.replicate 10 0 ++ h.authPluginData2 ++ [0] ++
      (if h.authPluginName ≠ [] then h.authPluginName ++ [0] else [])
  packetHeader payload.length 0 ++ payload

def encodeHandshakeResponse (r : HandshakeResponse) : List Byte :=
  let payload :=
    leBytes4 r.capabilityFlags ++ leBytes4 r.maxPacketSize ++ [r.characterSet % 256] ++
      List.replicate 23 0 ++ r.username ++ [0] ++
      (if hasFlag r.capabilityFlags clientSecureConnection then
        [r.authResponse.length % 256] ++ r.authResponse
       else r.authResponse ++ [0]) ++
      (match r.database with
       | some db => db ++ [0]
       | none => []) ++
      (match r.authPluginName with
       | some p => p ++ [0]
       | none => [])
  packetHeader payload.length 1 ++ payload

def encodeGeneric (seq : Nat) (payload : List Byte) : List Byte :=
  packetHeader payload.length seq ++ payload

def encodeQuery (seq : Nat) (q : List Byte) : List Byte :=
  packetHeader (1 + q.length) seq ++ [0x03] ++ q

def encodeColumnDefinition (c : ColumnDefinition) : List Byte :=
  let payload :=
    writeLenencString c.catalog ++ writeLenencString c.schema ++
      writeLenencString c.table ++ writeLenencString c.orgTable ++
      writeLenencString c.name ++ writeLenencString c.orgName ++
      [0x0c] ++ leBytes2 c.characterSet ++ leBytes4 c.columnLength ++
      [c.columnType % 256] ++ leBytes2 c.flags ++ [c.decimals % 256] ++ [0, 0]
  packetHeader payload.length c.sequenceId ++ payload

def encodeResultRow (seq : Nat) (values : List (Option (List Byte))) : List Byte :=
  let payload := values.flatMap (fun v =>
    match v with
    | some s => writeLenencString s
    | none => [0xfb])
  packetHeader payload.length seq ++ payload

def encodeOk (caps : Nat) (o : OkPacket) : List Byte :=
  let payload :=
    [0x00] ++ writeLenencInt o.affectedRows ++ writeLenencInt o.lastInsertId ++
      (if hasFlag caps clientProtocol41 then
        leBytes2 o.statusFlags ++ leBytes2 o.warnings
       else []) ++ o.info
  packetHeader payload.length o.sequenceId ++ payload

def encodeErr (caps : Nat) (e : ErrPacket) : List Byte :=
  let payload :=
    [0xff] ++ leBytes2 e.errorCode ++
      (if hasFlag caps clientProtocol41 then [35] ++ e.sqlState else []) ++
      utf8Encode e.errorMessage
  packetHeader payload.length e.sequenceId ++ payload

def encodeEof (e : EofPacket) : List Byte :=
  let payload := [0xfe] ++ leBytes2 e.warnings ++ leBytes2 e.statusFlags
  packetHeader payload.length e.sequenceId ++ payload

/-- `impl Encoder<MySqlMessage> for MySqlCodec`. -/
def myEncode (caps : Nat) : MySqlMessage → List Byte
  | .handshake h => encodeHandshakeV10 h
  | .handshakeResponse r => encodeHandshakeResponse r
  | .generic seq p => encodeGeneric seq p
  | .query seq q => encodeQuery seq q
  | .columnDefinition c => encodeColumnDefinition c
  | .resultRow seq vs => encodeResultRow seq vs
  | .ok o => encodeOk caps o
  | .err e => encodeErr caps e
  | .eof e => encodeEof e

/-! ## Auxiliary definitions used by the statements below -/

/-- The scanner's pattern set in its fixed evaluation order. -/
def patternOrder : List (Rx × PiiType) :=
  [(emailRx, .Email), (ccRx, .CreditCard), (ssnRx, .Ssn), (ipRx, .IpAddress),
   (dobRx, .DateOfBirth), (phoneRx, .Phone), (passportRx, .Passport)]

/-- First-match semantics over an ordered pattern list. -/
def firstMatchOrder (s : List Cp) : Option PiiType :=
  (patternOrder.find? (fun p => rxMatch p.1 s)).map Prod.snd

/-- The separator class of the credit-card pattern: a dash or a `\s`
whitespace character. -/
def isCcSep (c : Cp) : Bool := c == 45 || isWsC c

/-- The credit-card shape written from the spec's words: four groups of
four decimal digits, the first three groups each followed by an optional
single separator — sixteen digits in total. -/
def specCreditCardShape (s : List Cp) : Prop :=
  ∃ g1 o1 g2 o2 g3 o3 g4 : List Cp,
    s = g1 ++ o1 ++ g2 ++ o2 ++ g3 ++ o3 ++ g4 ∧
    (∀ g ∈ [g1, g2, g3, g4], g.length = 4 ∧ ∀ c ∈ g, isDigitC c = true) ∧
    (∀ o ∈ [o1, o2, o3], o = [] ∨ ∃ c, o = [c] ∧ isCcSep c = true)

/-- A Unicode scalar value (what a Rust `char` can hold). -/
def validScalar (c : Cp) : Prop := c < 0x110000 ∧ ¬(0xD800 ≤ c ∧ c ≤ 0xDFFF)

/-- A concrete, minimal, valid MySQL HandshakeV10 packet whose sequence
id is 5: header `[34, 0, 0, 5]`, then protocol version 10, server
version "x", connection id 1, 8 bytes of auth data, filler, zero
capability flags, charset 8, status 2, auth-data length byte, and the 10
reserved bytes. -/
def hsBytes : List Byte :=
  [34, 0, 0, 5] ++
    [10] ++ [120, 0] ++ [1, 0, 0, 0] ++ [1, 2, 3, 4, 5, 6, 7, 8] ++ [0] ++
    [0, 0] ++ [8] ++ [2, 0] ++ [0, 0] ++ [0] ++ List.replicate 10 0

/-- The message `hsBytes` decodes to. -/
def hsDecoded : HandshakeV10 :=
  ⟨10, [120], 1, [1, 2, 3, 4, 5, 6, 7, 8], 0, 8, 2, [], []⟩

/-- Concrete masking rules for the rule-inclusion counterexample: same
column, different strategies. -/
def ruleA : MaskingRule := ⟨none, "email", "address"⟩
def ruleB : MaskingRule := ⟨none, "email", "ssn"⟩

/-- Well-formedness of a canonically-encoded MySQL OK packet under
`CLIENT_PROTOCOL_41`. -/
def wfOk (o : OkPacket) : Prop :=
  o.sequenceId < 256 ∧ o.affectedRows < 2 ^ 64 ∧ o.lastInsertId < 2 ^ 64 ∧
    o.statusFlags < 2 ^ 16 ∧ o.warnings < 2 ^ 16 ∧
    1 + (writeLenencInt o.affectedRows).length + (writeLenencInt o.lastInsertId).length +
      4 + o.info.length < 2 ^ 24

def wfErr (e : ErrPacket) : Prop :=
  e.sequenceId < 256 ∧ e.errorCode < 2 ^ 16 ∧ e.sqlState.length = 5 ∧
    (∀ c ∈ e.errorMessage, validScalar c) ∧
    9 + (utf8Encode e.errorMessage).length < 2 ^ 24

def wfEof (e : EofPacket) : Prop :=
  e.sequenceId < 256 ∧ e.warnings < 2 ^ 16 ∧ e.statusFlags < 2 ^ 16

def wfColDef (c : ColumnDefinition) : Prop :=
  c.sequenceId < 256 ∧ c.characterSet < 2 ^ 16 ∧ c.columnLength < 2 ^ 32 ∧
    c.columnType < 256 ∧ c.flags < 2 ^ 16 ∧ c.decimals < 256 ∧
    (encodeColumnDefinition c).length < 4 + 2 ^ 24

/-! # Theorems -/

/-! ## Generic helper lemmas -/

theorem mapWithIdx_length (f : Nat → α → β) (k : Nat) (l : List α) :
    (mapWithIdx f k l).length = l.length := by
  induction l generalizing k with
  | nil => rfl
  | cons x xs ih => simp [mapWithIdx, ih]

theorem mapWithIdx_getElem? (f : Nat → α → β) (k i : Nat) (l : List α) :
    (mapWithIdx f k l)[i]? = (l[i]?).map (f (k + i)) := by
  induction l generalizing k i with
  | nil => simp [mapWithIdx]
  | cons x xs ih =>
    cases i with
    | zero => simp [mapWithIdx]
    | succ n =>
      have := ih (k + 1) n
      simpa [mapWithIdx, Nat.add_assoc, Nat.add_comm 1 n] using this

theorem optmap_isNone (g : α → β) (v : Option α) :
    (Option.map g v).isNone = v.isNone := by
  cases v <;> rfl

/-! ## C1 -/

/-- C1: for every data row processed by `Anonymizer::on_data_row`
(Postgres) or `MySqlAnonymizer::on_result_row` (MySQL), the returned
row has the same number of columns as the input row, and each column is
null in the output iff it was null in the input — only byte contents of
present cells can change. -/
theorem c1_row_shape_preserved (ctx : MaskCtx) (enabled : Bool)
    (tc : List (Nat × String)) (vals : List (Option (List Byte))) :
    ((pgOnDataRow ctx enabled tc vals).length = vals.length ∧
      ∀ i : Nat, ((pgOnDataRow ctx enabled tc vals)[i]?).map Option.isNone =
        (vals[i]?).map Option.isNone) ∧
    ((mysqlOnResultRow ctx enabled tc vals).length = vals.length ∧
      ∀ i : Nat, ((mysqlOnResultRow ctx enabled tc vals)[i]?).map Option.isNone =
        (vals[i]?).map Option.isNone) := by
  unfold pgOnDataRow mysqlOnResultRow
  cases enabled
  · simp
  · simp only [if_true]
    refine ⟨⟨mapWithIdx_length _ _ _, fun i => ?_⟩, ⟨mapWithIdx_length _ _ _, fun i => ?_⟩⟩ <;>
    · rw [mapWithIdx_getElem?]
      cases h : vals[i]? with
      | none => simp
      | some v => simp [optmap_isNone]

/-! ## C2 -/

/-- C2: fake-value generation is deterministic and position-independent:
two cells carrying the same original bytes under the same (explicit or
absent) strategy map to the same substituted bytes, no matter which row,
which column index, or which target-column table they sit in.  The seed
is `defaultHashBytes` of the original bytes alone, and the whole
substitution is a pure function of (bytes, strategy). -/
theorem c2_masking_deterministic (ctx : MaskCtx) (tc₁ tc₂ : List (Nat × String))
    (vals₁ vals₂ : List (Option (List Byte))) (i j : Nat) (v : List Byte)
    (hs : stratAt tc₁ i = stratAt tc₂ j)
    (h₁ : vals₁[i]? = some (some v)) (h₂ : vals₂[j]? = some (some v)) :
    (pgOnDataRow ctx true tc₁ vals₁)[i]? = (pgOnDataRow ctx true tc₂ vals₂)[j]? ∧
    (mysqlOnResultRow ctx true tc₁ vals₁)[i]? = (mysqlOnResultRow ctx true tc₂ vals₂)[j]? := by
  unfold pgOnDataRow mysqlOnResultRow
  constructor <;>
  · simp only [if_true]
    rw [mapWithIdx_getElem?, mapWithIdx_getElem?, h₁, h₂]
    simp [hs]

/-- Witness for C2 at concrete inputs: the same bytes `[97]` under the
same strategy `ssn` at different column indices of different rows. -/
theorem c2_witness :
    (pgOnDataRow constCtx true [(0, "ssn")] [some [97]])[0]? =
      (pgOnDataRow constCtx true [(3, "x"), (1, "ssn")] [none, some [97]])[1]? ∧
    (mysqlOnResultRow constCtx true [(0, "ssn")] [some [97]])[0]? =
      (mysqlOnResultRow constCtx true [(3, "x"), (1, "ssn")] [none, some [97]])[1]? :=
  c2_masking_deterministic constCtx [(0, "ssn")] [(3, "x"), (1, "ssn")]
    [some [97]] [none, some [97]] 0 1 [97] (by decide) (by decide) (by decide)

/-! ## C3 -/

/-- C3 (code bug): on a regular-mode `DataRow` frame whose declared cell
length (99) exceeds the remaining payload (0 bytes), the decoder panics
(`bytes::split_to` out of bounds) instead of returning a framing error —
while a missing NUL terminator in a `Query` frame does return the
claimed framing error. -/
theorem c3_oversized_cell_panics :
    pgDecode false [68, 0, 0, 0, 10, 0, 1, 0, 0, 0, 99] = (.crash, false, []) ∧
    pgDecode false [81, 0, 0, 0, 5, 65] = (.errOut, false, []) := by decide

/-! ## C6 -/

/-- In startup mode the `is_startup` flag comes out false exactly when a
Startup message was successfully decoded. -/
theorem pgDecodeStartup_flag (src : List Byte) :
    (pgDecodeStartup src).2.1 = false ↔
      ∃ ver ps, (pgDecodeStartup src).1 = .msg (.startup ver ps) := by
  unfold pgDecodeStartup
  dsimp only []
  split
  · simp
  · split
    · simp
    · split
      · simp
      · split
        · simp
        · split
          · simp
          · split
            · simp
            · simp
            · simp

/-- C6: decoding the 8-byte SSLRequest leaves the awaiting-startup flag
true, a subsequent Startup carrying `user = alice` decodes correctly and
flips the flag to false, and in startup mode the flag becomes false
exactly when a Startup message was successfully decoded. -/
theorem c6_sslrequest_keeps_startup_flag :
    pgDecode true [0, 0, 0, 8, 4, 210, 22, 47] = (.msg .sslRequest, true, []) ∧
    pgDecode true ([0, 0, 0, 20] ++ [0, 3, 0, 0] ++ asciiBytes "user" ++ [0] ++
        asciiBytes "alice" ++ [0] ++ [0]) =
      (.msg (.startup 196608 [(asciiBytes "user", asciiBytes "alice")]), false, []) ∧
    ∀ src : List Byte,
      (pgDecode true src).2.1 = false ↔
        ∃ ver ps, (pgDecode true src).1 = .msg (.startup ver ps) :=
  ⟨by decide, by decide, fun src => pgDecodeStartup_flag src⟩

/-! ## C7 -/

theorem mem_rxSeq {a b : Rx} {s t : List Cp} :
    t ∈ rxSeq a b s ↔ ∃ m, m ∈ a s ∧ t ∈ b m := by
  simp [rxSeq, List.mem_flatMap]

theorem mem_rxClass {p : Cp → Bool} {s t : List Cp} :
    t ∈ rxClass p s ↔ ∃ c, s = c :: t ∧ p c = true := by
  cases s with
  | nil => simp [rxClass]
  | cons c rest =>
    by_cases h : p c = true
    · simp only [rxClass, if_pos h, List.mem_singleton]
      constructor
      · rintro rfl
        exact ⟨c, rfl, h⟩
      · rintro ⟨c', heq, _⟩
        cases heq
        rfl
    · simp only [rxClass, if_neg h, List.not_mem_nil, false_iff]
      rintro ⟨c', heq, hc'⟩
      cases heq
      exact h hc'

theorem mem_rxOpt {a : Rx} {s t : List Cp} :
    t ∈ rxOpt a s ↔ t = s ∨ t ∈ a s := by
  simp [rxOpt]

theorem mem_rxRep_zero {a : Rx} {s t : List Cp} :
    t ∈ rxRep a 0 s ↔ t = s := by
  simp [rxRep]

theorem mem_rxRepClass (p : Cp → Bool) (n : Nat) (s t : List Cp) :
    t ∈ rxRep (rxClass p) n s ↔
      ∃ g, s = g ++ t ∧ g.length = n ∧ ∀ c ∈ g, p c = true := by
  induction n generalizing s with
  | zero =>
    simp only [mem_rxRep_zero]
    constructor
    · rintro rfl
      exact ⟨[], rfl, rfl, by simp⟩
    · rintro ⟨g, rfl, hlen, _⟩
      rw [List.length_eq_zero] at hlen
      simp [hlen]
  | succ k ih =>
    simp only [rxRep, mem_rxSeq, mem_rxClass, ih]
    constructor
    · rintro ⟨m, ⟨c, rfl, hc⟩, g, rfl, hlen, hall⟩
      refine ⟨c :: g, rfl, by simp [hlen], ?_⟩
      intro x hx
      rcases List.mem_cons.1 hx with rfl | hx
      · exact hc
      · exact hall x hx
    · rintro ⟨g, rfl, hlen, hall⟩
      cases g with
      | nil => simp at hlen
      | cons c g' =>
        refine ⟨g' ++ t, ⟨c, rfl, hall c (by simp)⟩, g', rfl, by simpa using hlen, ?_⟩
        intro x hx
        exact hall x (by simp [hx])

/-- Membership through one credit-card group: four digits then an
optional single separator. -/
theorem mem_ccGroup {s t : List Cp} :
    t ∈ rxSeq (rxRep (rxClass isDigitC) 4)
        (rxOpt (rxClass fun c => c == 45 || isWsC c)) s ↔
      ∃ g o, s = g ++ o ++ t ∧ g.length = 4 ∧ (∀ c ∈ g, isDigitC c = true) ∧
        (o = [] ∨ ∃ c, o = [c] ∧ isCcSep c = true) := by
  simp only [mem_rxSeq, mem_rxRepClass, mem_rxOpt, mem_rxClass]
  constructor
  · rintro ⟨m, ⟨g, rfl, hlen, hdig⟩, hopt⟩
    rcases hopt with rfl | ⟨c, rfl, hc⟩
    · exact ⟨g, [], by simp, hlen, hdig, Or.inl rfl⟩
    · exact ⟨g, [c], by simp, hlen, hdig, Or.inr ⟨c, rfl, hc⟩⟩
  · rintro ⟨g, o, rfl, hlen, hdig, hopt⟩
    rcases hopt with rfl | ⟨c, rfl, hc⟩
    · exact ⟨t, ⟨g, by simp, hlen, hdig⟩, Or.inl rfl⟩
    · exact ⟨c :: t, ⟨g, by simp, hlen, hdig⟩, Or.inr ⟨c, rfl, hc⟩⟩

theorem mem_rxRep3 {a : Rx} {s t : List Cp} :
    t ∈ rxRep a 3 s ↔
      ∃ m1, m1 ∈ a s ∧ ∃ m2, m2 ∈ a m1 ∧ ∃ m3, m3 ∈ a m2 ∧ t = m3 := by
  show t ∈ rxSeq a (rxSeq a (rxSeq a (rxRep a 0))) s ↔ _
  simp only [mem_rxSeq, mem_rxRep_zero]

/-- The credit-card regex recognises exactly the sixteen-digit
four-group shape. -/
theorem ccRx_iff_shape (s : List Cp) :
    rxMatch ccRx s = true ↔ specCreditCardShape s := by
  have hmem : rxMatch ccRx s = true ↔ [] ∈ ccRx s := by
    simp [rxMatch, List.any_eq_true, List.isEmpty_iff]
  rw [hmem]
  show [] ∈ rxSeq (rxRep _ 3) (rxRep (rxClass isDigitC) 4) s ↔ _
  rw [mem_rxSeq]
  constructor
  · rintro ⟨m, hchain, hd4⟩
    rw [mem_rxRep3] at hchain
    obtain ⟨m1, hm1, m2, hm2, m3, hm3, rfl⟩ := hchain
    rw [mem_ccGroup] at hm1 hm2 hm3
    rw [mem_rxRepClass] at hd4
    obtain ⟨g1, o1, rfl, h1l, h1d, h1o⟩ := hm1
    obtain ⟨g2, o2, rfl, h2l, h2d, h2o⟩ := hm2
    obtain ⟨g3, o3, rfl, h3l, h3d, h3o⟩ := hm3
    obtain ⟨g4, rfl, h4l, h4d⟩ := hd4
    refine ⟨g1, o1, g2, o2, g3, o3, g4 ++ [], by simp, ?_, ?_⟩
    · intro g hg
      simp only [List.mem_cons, List.not_mem_nil, or_false] at hg
      rcases hg with rfl | rfl | rfl | rfl
      · exact ⟨h1l, h1d⟩
      · exact ⟨h2l, h2d⟩
      · exact ⟨h3l, h3d⟩
      · exact ⟨by simp [h4l], by simpa using h4d⟩
    · intro o ho
      simp only [List.mem_cons, List.not_mem_nil, or_false] at ho
      rcases ho with rfl | rfl | rfl
      exacts [h1o, h2o, h3o]
  · rintro ⟨g1, o1, g2, o2, g3, o3, g4, rfl, hg, ho⟩
    have hg1 := hg g1 (by simp)
    have hg2 := hg g2 (by simp)
    have hg3 := hg g3 (by simp)
    have hg4 := hg g4 (by simp)
    have ho1 := ho o1 (by simp)
    have ho2 := ho o2 (by simp)
    have ho3 := ho o3 (by simp)
    refine ⟨g4, ?_, ?_⟩
    · rw [mem_rxRep3]
      refine ⟨g2 ++ o2 ++ g3 ++ o3 ++ g4,
        mem_ccGroup.2 ⟨g1, o1, by simp, hg1.1, hg1.2, ho1⟩,
        g3 ++ o3 ++ g4,
        mem_ccGroup.2 ⟨g2, o2, by simp, hg2.1, hg2.2, ho2⟩,
        g4, mem_ccGroup.2 ⟨g3, o3, by simp, hg3.1, hg3.2, ho3⟩, rfl⟩
    · exact (mem_rxRepClass _ _ _ _).2 ⟨g4, by simp, hg4.1, hg4.2⟩

/-- C7 (counterexample): the credit-card pattern does not accept 13- or
19-digit values — contrary to the claimed "13–19 decimal digits", the
scanner classifies both as no PII. -/
theorem c7_counterexample :
    scan (asciiBytes "4111111111111") = none ∧
    scan (asciiBytes "4111111111111111111") = none := by decide

/-- C7 (amended): the scanner evaluates the closed pattern set in the
fixed order email, credit card, SSN, IP address, date of birth, phone,
passport, returning the first anchored full-value match, and classifies
the empty string as no PII; the CreditCard pattern matches exactly
sixteen decimal digits in four groups of four, the first three groups
each followed by an optional single dash or whitespace separator. -/
theorem c7_scan_first_match :
    (∀ s, scan s = firstMatchOrder s) ∧
    scan [] = none ∧
    (∀ s, rxMatch ccRx s = true ↔ specCreditCardShape s) := by
  refine ⟨fun s => ?_, by decide, ccRx_iff_shape⟩
  by_cases h1 : rxMatch emailRx s
  · simp [scan, firstMatchOrder, patternOrder, h1]
  · by_cases h2 : rxMatch ccRx s
    · simp [scan, firstMatchOrder, patternOrder, h1, h2]
    · by_cases h3 : rxMatch ssnRx s
      · simp [scan, firstMatchOrder, patternOrder, h1, h2, h3]
      · by_cases h4 : rxMatch ipRx s
        · simp [scan, firstMatchOrder, patternOrder, h1, h2, h3, h4]
        · by_cases h5 : rxMatch dobRx s
          · simp [scan, firstMatchOrder, patternOrder, h1, h2, h3, h4, h5]
          · by_cases h6 : rxMatch phoneRx s
            · simp [scan, firstMatchOrder, patternOrder, h1, h2, h3, h4, h5, h6]
            · by_cases h7 : rxMatch passportRx s
              · simp [scan, firstMatchOrder, patternOrder, h1, h2, h3, h4, h5, h6, h7]
              · simp [scan, firstMatchOrder, patternOrder, h1, h2, h3, h4, h5, h6, h7]

/-! ## C8 -/

/-- C8 (counterexample): masking is not a fixed point on already-masked
values.  Under the explicit strategy `ssn`, masking the cell `"a"` gives
`XXX-XX-1684` (seed = `DefaultHasher` of the bytes); masking that value
again re-derives the seed from the new bytes and yields a different
fake. -/
theorem c8_counterexample :
    pgOnDataRow constCtx true [(0, "ssn")]
        (pgOnDataRow constCtx true [(0, "ssn")] [some (asciiBytes "a")]) ≠
      pgOnDataRow constCtx true [(0, "ssn")] [some (asciiBytes "a")] := by decide

/-- C8 (amended): re-masking an already-masked cell yields the same
value only for the seed-independent strategies: for `ip`, `dob` and
`passport` the per-cell masking step is idempotent (Postgres and MySQL),
and the heuristically masked fakes `0.0.0.0` and `1900-01-01` are
literal fixed points of the heuristic path; seed-dependent strategies
such as `ssn` are not fixed (see the counterexample). -/
theorem c8_fixed_point_constant_strategies :
    (∀ (ctx : MaskCtx) (s : String) (val : List Byte),
        s = "ip" ∨ s = "dob" ∨ s = "passport" →
        pgProcessCell ctx (some s) (pgProcessCell ctx (some s) val) =
          pgProcessCell ctx (some s) val ∧
        mysqlProcessCell ctx (some s) (mysqlProcessCell ctx (some s) val) =
          mysqlProcessCell ctx (some s) val) ∧
    pgProcessCell constCtx none (asciiBytes "0.0.0.0") = asciiBytes "0.0.0.0" ∧
    pgProcessCell constCtx none (asciiBytes "1900-01-01") = asciiBytes "1900-01-01" := by
  refine ⟨?_, by decide, by decide⟩
  rintro ctx s val (rfl | rfl | rfl) <;>
    exact ⟨by simp [pgProcessCell, maskPlain, generateFakeData],
      by simp [mysqlProcessCell, maskPlain, generateFakeData]⟩

/-- Witness for the C8 amendment at `strategy = ip`, cell `[97]`. -/
theorem c8_witness :
    pgProcessCell constCtx (some "ip") (pgProcessCell constCtx (some "ip") [97]) =
      pgProcessCell constCtx (some "ip") [97] ∧
    mysqlProcessCell constCtx (some "ip") (mysqlProcessCell constCtx (some "ip") [97]) =
      mysqlProcessCell constCtx (some "ip") [97] :=
  c8_fixed_point_constant_strategies.1 constCtx "ip" [97] (Or.inl rfl)

/-! ## C9 -/

theorem find?_append_left {p : α → Bool} {l1 : List α} (l2 : List α)
    (h : (l1.find? p).isSome) : (l1 ++ l2).find? p = l1.find? p := by
  induction l1 with
  | nil => simp at h
  | cons x xs ih =>
    by_cases hx : p x = true
    · simp [List.find?_cons_of_pos, hx]
    · rw [List.find?_cons_of_neg _ hx] at h
      rw [List.cons_append, List.find?_cons_of_neg _ hx,
        List.find?_cons_of_neg _ hx, ih h]

/-- C9 (counterexample): first-match strategy selection is not preserved
under rule-set inclusion.  `[ruleB] ⊆ [ruleA, ruleB]` (also as an
ordered sublist), the column `email` matches under both, yet the
selected strategies differ (`ssn` vs `address`). -/
theorem c9_counterexample :
    [ruleB].Sublist [ruleA, ruleB] ∧ [ruleB] ⊆ [ruleA, ruleB] ∧
    (mysqlSelect [ruleB] "email" "t").isSome = true ∧
    mysqlSelect [ruleB] "email" "t" ≠ mysqlSelect [ruleA, ruleB] "email" "t" ∧
    pgSelect [ruleB] "email" ≠ pgSelect [ruleA, ruleB] "email" := by
  refine ⟨(List.Sublist.refl _).cons ruleA, ?_, by decide, by decide, by decide⟩
  intro x hx
  rw [List.mem_singleton] at hx
  subst hx
  simp

/-- C9 (amended): rule matching is monotone under ordered rule-set
inclusion — a column matching under `r₁` also matches under any
superlist `r₂` — and the first-match strategy is preserved whenever the
larger set extends the smaller one at the end (new rules appended after
the existing ones), for both the MySQL and the Postgres matchers. -/
theorem c9_rule_monotonicity :
    (∀ (r1 r2 : List MaskingRule) (c t : String), r1.Sublist r2 →
        (mysqlSelect r1 c t).isSome → (mysqlSelect r2 c t).isSome) ∧
    (∀ (r1 extra : List MaskingRule) (c t : String),
        (mysqlSelect r1 c t).isSome →
        mysqlSelect (r1 ++ extra) c t = mysqlSelect r1 c t) ∧
    (∀ (r1 r2 : List MaskingRule) (c : String), r1.Sublist r2 →
        (pgSelect r1 c).isSome → (pgSelect r2 c).isSome) ∧
    (∀ (r1 extra : List MaskingRule) (c : String),
        (pgSelect r1 c).isSome →
        pgSelect (r1 ++ extra) c = pgSelect r1 c) := by
  refine ⟨fun r1 r2 c t hsub h => ?_, fun r1 extra c t h => ?_,
    fun r1 r2 c hsub h => ?_, fun r1 extra c h => ?_⟩
  · rw [mysqlSelect, Option.isSome_map'] at h ⊢
    rw [List.find?_isSome] at h ⊢
    obtain ⟨x, hx, hpx⟩ := h
    exact ⟨x, hsub.mem hx, hpx⟩
  · rw [mysqlSelect, Option.isSome_map'] at h
    rw [mysqlSelect, mysqlSelect, find?_append_left _ h]
  · rw [pgSelect, Option.isSome_map'] at h ⊢
    rw [List.find?_isSome] at h ⊢
    obtain ⟨x, hx, hpx⟩ := h
    exact ⟨x, hsub.mem hx, hpx⟩
  · rw [pgSelect, Option.isSome_map'] at h
    rw [pgSelect, pgSelect, find?_append_left _ h]

/-- Witness for the C9 amendment at concrete rule sets. -/
theorem c9_witness :
    ((mysqlSelect [ruleB, ruleA] "email" "t").isSome ∧
      mysqlSelect ([ruleB] ++ [ruleA]) "email" "t" = mysqlSelect [ruleB] "email" "t") ∧
    ((pgSelect [ruleB, ruleA] "email").isSome ∧
      pgSelect ([ruleB] ++ [ruleA]) "email" = pgSelect [ruleB] "email") :=
  ⟨⟨c9_rule_monotonicity.1 [ruleB] [ruleB, ruleA] "email" "t"
      ((List.nil_sublist [ruleA]).cons₂ ruleB) (by decide),
    c9_rule_monotonicity.2.1 [ruleB] [ruleA] "email" "t" (by decide)⟩,
   ⟨c9_rule_monotonicity.2.2.1 [ruleB] [ruleB, ruleA] "email"
      ((List.nil_sublist [ruleA]).cons₂ ruleB) (by decide),
    c9_rule_monotonicity.2.2.2 [ruleB] [ruleA] "email" (by decide)⟩⟩

/-! ## C10 -/

/-- C10 (counterexample): `parse_result_row` can return an `anyhow`
error on a well-framed packet: a second cell starting with the invalid
length marker `0xff`, or a truncated `0xfc` length header, both fail
instead of being decoded as NULL. -/
theorem c10_counterexample :
    parseResultRow 2 [0x01, 0x41, 0xff] = .err ∧
    parseResultRow 1 [0xfc, 0x01] = .err := by decide

theorem parseResultRow_length (n : Nat) :
    ∀ (buf : List Byte) (vs : List (Option (List Byte))) (r : List Byte),
      parseResultRow n buf = .ok vs r → vs.length = n := by
  induction n with
  | zero =>
    intro buf vs r h
    simp only [parseResultRow] at h
    cases h
    rfl
  | succ k ih =>
    intro buf vs r h
    simp only [parseResultRow] at h
    split at h
    · split at h <;> cases h
      simp only [List.length_cons]
      rw [ih _ _ _ (by assumption)]
    · split at h
      · split at h <;> cases h
        simp only [List.length_cons]
        rw [ih _ _ _ (by assumption)]
      · split at h
        · split at h
          · split at h <;> cases h
            simp only [List.length_cons]
            rw [ih _ _ _ (by assumption)]
          · split at h <;> cases h
            simp only [List.length_cons]
            rw [ih _ _ _ (by assumption)]
        · cases h
        · cases h

theorem parseResultRow_nil (n : Nat) :
    parseResultRow n [] = .ok (List.replicate n none) [] := by
  induction n with
  | zero => rfl
  | succ k ih => simp only [parseResultRow, ih, List.replicate]

theorem getLenencInt_no_crash (s : List Byte) : getLenencInt s ≠ .crash := by
  unfold getLenencInt
  repeat' split
  all_goals intro h
  all_goals exact PRes.noConfusion h

theorem parseResultRow_no_crash (n : Nat) :
    ∀ buf : List Byte, parseResultRow n buf ≠ .crash := by
  induction n with
  | zero => intro buf h; simp [parseResultRow] at h
  | succ k ih =>
    intro buf h
    simp only [parseResultRow] at h
    split at h
    · split at h <;> simp_all
    · split at h
      · split at h <;> simp_all
      · split at h
        · split at h
          · split at h <;> simp_all
          · split at h <;> simp_all
        · exact PRes.noConfusion h
        · rename_i hcrash
          exact getLenencInt_no_crash _ hcrash

/-- C10 (amended): `parse_result_row` always yields exactly
`column_count` values when it succeeds; an empty payload yields all
NULLs; a declared cell length exceeding the remaining payload yields a
NULL for that cell; and the function never panics — but an invalid or
truncated length-encoded header is an error that fails the connection
(see the counterexample). -/
theorem c10_result_row_amended :
    (∀ (n : Nat) (buf : List Byte) (vs : List (Option (List Byte))) (r : List Byte),
        parseResultRow n buf = .ok vs r → vs.length = n) ∧
    (∀ n : Nat, parseResultRow n [] = .ok (List.replicate n none) []) ∧
    parseResultRow 1 [0x05, 0x41] = .ok [none] [0x41] ∧
    (∀ (n : Nat) (buf : List Byte), parseResultRow n buf ≠ .crash) :=
  ⟨fun n => parseResultRow_length n, parseResultRow_nil, by decide,
   fun n => parseResultRow_no_crash n⟩

/-- Witness for the C10 amendment on a concrete two-cell row. -/
theorem c10_witness :
    ([some [65], none] : List (Option (List Byte))).length = 2 :=
  c10_result_row_amended.1 2 [1, 65, 0xfb] [some [65], none] [] (by decide)

/-! ## C5: reader/writer inversion lemmas -/

theorem getU16be_beBytes2 (n : Nat) (r : List Byte) (h : n < 2 ^ 16) :
    getU16be (beBytes2 n ++ r) = .ok n r := by
  show PRes.ok (n / 256 % 256 * 256 + n % 256) r = .ok n r
  congr 1
  omega

theorem getU32be_beBytes4 (n : Nat) (r : List Byte) (h : n < 2 ^ 32) :
    getU32be (beBytes4 n ++ r) = .ok n r := by
  show PRes.ok (((n / 16777216 % 256 * 256 + n / 65536 % 256) * 256 +
    n / 256 % 256) * 256 + n % 256) r = .ok n r
  congr 1
  omega

theorem toTwos_lt (w : Nat) (i : Int) : toTwos w i < 2 ^ w := by
  unfold toTwos
  have hpos : (0 : Int) < ((2 ^ w : Nat) : Int) := by positivity
  have hlt := Int.emod_lt_of_pos i hpos
  have hnn := Int.emod_nonneg i (ne_of_gt hpos)
  omega

theorem fromTwos_toTwos16 (i : Int) (h1 : -2 ^ 15 ≤ i) (h2 : i < 2 ^ 15) :
    fromTwos 16 (toTwos 16 i) = i := by
  unfold fromTwos toTwos
  have hpos : (0 : Int) < ((2 ^ 16 : Nat) : Int) := by norm_num
  have hlt := Int.emod_lt_of_pos i hpos
  have hnn := Int.emod_nonneg i (ne_of_gt hpos)
  norm_num at *
  split <;> omega

theorem fromTwos_toTwos32 (i : Int) (h1 : -2 ^ 31 ≤ i) (h2 : i < 2 ^ 31) :
    fromTwos 32 (toTwos 32 i) = i := by
  unfold fromTwos toTwos
  have hpos : (0 : Int) < ((2 ^ 32 : Nat) : Int) := by norm_num
  have hlt := Int.emod_lt_of_pos i hpos
  have hnn := Int.emod_nonneg i (ne_of_gt hpos)
  norm_num at *
  split <;> omega

theorem getI16be_beBytes2 (i : Int) (r : List Byte)
    (h1 : -2 ^ 15 ≤ i) (h2 : i < 2 ^ 15) :
    getI16be (beBytes2 (toTwos 16 i) ++ r) = .ok i r := by
  unfold getI16be pmap pbind ppure
  rw [getU16be_beBytes2 _ _ (toTwos_lt 16 i)]
  show PRes.ok (fromTwos 16 (toTwos 16 i)) r = _
  rw [fromTwos_toTwos16 i h1 h2]

theorem getI32be_beBytes4 (i : Int) (r : List Byte)
    (h1 : -2 ^ 31 ≤ i) (h2 : i < 2 ^ 31) :
    getI32be (beBytes4 (toTwos 32 i) ++ r) = .ok i r := by
  unfold getI32be pmap pbind ppure
  rw [getU32be_beBytes4 _ _ (toTwos_lt 32 i)]
  show PRes.ok (fromTwos 32 (toTwos 32 i)) r = _
  rw [fromTwos_toTwos32 i h1 h2]

theorem getI32be_ofNat (m : Nat) (r : List Byte) (h : m < 2 ^ 31) :
    getI32be (beBytes4 m ++ r) = .ok (m : Int) r := by
  unfold getI32be pmap pbind ppure
  rw [getU32be_beBytes4 _ _ (by omega)]
  show PRes.ok (fromTwos 32 m) r = _
  unfold fromTwos
  rw [if_pos h]

theorem takeN_exact (v r : List Byte) : takeN v.length (v ++ r) = .ok v r := by
  simp [takeN, List.take_left, List.drop_left]

theorem skipN_exact {n : Nat} (l r : List Byte) (h : l.length = n) :
    skipN n (l ++ r) = .ok () r := by
  subst h
  simp [skipN, List.drop_left]

theorem readCStringBytes_append (b : List Byte) (r : List Byte)
    (h : (0 : Nat) ∉ b) : readCStringBytes (b ++ 0 :: r) = .ok b r := by
  induction b with
  | nil => simp [readCStringBytes]
  | cons x xs ih =>
    simp only [List.mem_cons, not_or] at h
    simp only [List.cons_append, List.append_eq, readCStringBytes]
    rw [if_neg (fun hx => h.1 hx.symm), ih h.2]

theorem readCString_append (b : List Byte) (r : List Byte)
    (h : (0 : Nat) ∉ b) (hu : isValidUtf8 b = true) :
    readCString (b ++ 0 :: r) = .ok b r := by
  unfold readCString
  rw [readCStringBytes_append b r h]
  show (if isValidUtf8 b = true then PRes.ok b r else .err) = .ok b r
  rw [hu]
  simp

theorem pbind_ok {α β : Type} {p : Pm α} {f : α → Pm β} {s : List Byte}
    {a : α} {r : List Byte} (h : p s = .ok a r) : pbind p f s = f a r := by
  unfold pbind
  rw [h]

theorem pmap_ok {α β : Type} {p : Pm α} {f : α → β} {s : List Byte}
    {a : α} {r : List Byte} (h : p s = .ok a r) : pmap p f s = .ok (f a) r := by
  unfold pmap
  rw [pbind_ok h]
  rfl

theorem parseParamTypes_encode (pts : List Nat) (r : List Byte)
    (h : ∀ p ∈ pts, p < 2 ^ 32) :
    parseParamTypes pts.length (pts.flatMap beBytes4 ++ r) = .ok pts r := by
  induction pts with
  | nil => simp [parseParamTypes, ppure]
  | cons p ps ih =>
    simp only [List.flatMap_cons, List.append_assoc, List.length_cons, parseParamTypes]
    rw [pbind_ok (getU32be_beBytes4 _ _ (h p (by simp)))]
    rw [pmap_ok (ih (fun q hq => h q (by simp [hq])))]

theorem parseFields_encode (fs : List FieldDescription) (r : List Byte)
    (h : ∀ f ∈ fs, wfField f) :
    parseFields fs.length (fs.flatMap encodeField ++ r) = .ok fs r := by
  induction fs with
  | nil => simp [parseFields, ppure]
  | cons f fs ih =>
    obtain ⟨hn, ht, hc, hty, hl1, hl2, hm1, hm2, hf1, hf2⟩ := h f (by simp)
    simp only [List.flatMap_cons, List.length_cons, parseFields, encodeField,
      List.append_assoc, List.cons_append, List.nil_append]
    rw [pbind_ok (readCStringBytes_append _ _ hn)]
    rw [pbind_ok (getU32be_beBytes4 _ _ ht)]
    rw [pbind_ok (getU16be_beBytes2 _ _ hc)]
    rw [pbind_ok (getU32be_beBytes4 _ _ hty)]
    rw [pbind_ok (getI16be_beBytes2 _ _ hl1 hl2)]
    rw [pbind_ok (getI32be_beBytes4 _ _ hm1 hm2)]
    rw [pbind_ok (getI16be_beBytes2 _ _ hf1 hf2)]
    rw [pmap_ok (ih (fun g hg => h g (by simp [hg])))]

theorem parseCells_encode (vs : List (Option (List Byte))) (r : List Byte)
    (h : ∀ v ∈ vs, ∀ w ∈ v, List.length w < 2 ^ 31) :
    parseCells vs.length (vs.flatMap encodeCell ++ r) = .ok vs r := by
  induction vs with
  | nil => simp [parseCells, ppure]
  | cons v vs ih =>
    have ihr := ih (fun u hu => h u (by simp [hu]))
    simp only [List.flatMap_cons, List.append_assoc, List.length_cons, parseCells]
    cases v with
    | none =>
      simp only [encodeCell, List.append_assoc]
      rw [pbind_ok (getI32be_beBytes4 (-1) _ (by norm_num) (by norm_num))]
      rw [if_pos rfl]
      rw [pmap_ok (p := parseCells vs.length) ihr]
    | some w =>
      have hw : w.length < 2 ^ 31 := h (some w) (by simp) w rfl
      simp only [encodeCell, List.append_assoc]
      rw [pbind_ok (getI32be_ofNat _ _ hw)]
      rw [if_neg (by omega), if_neg (by omega)]
      have htn : Int.toNat ((w.length : Nat) : Int) = w.length := by simp
      rw [htn]
      rw [pbind_ok (takeN_exact w _)]
      rw [pmap_ok (p := parseCells vs.length) ihr]

theorem parseParamsAux_step (fuel : Nat) (buf : List Byte) (hne : buf ≠ []) :
    parseParamsAux (fuel + 1) buf =
      match readCString buf with
      | .ok key rest =>
        if key = [] then .ok [] rest
        else
          match readCString rest with
          | .ok v rest2 =>
            (match parseParamsAux fuel rest2 with
             | .ok ps r => .ok ((key, v) :: ps) r
             | .err => .err
             | .crash => .crash)
          | .err => .err
          | .crash => .crash
      | .err => .err
      | .crash => .crash := by
  cases buf with
  | nil => exact absurd rfl hne
  | cons b bs => rfl

theorem parseParamsAux_encode (ps : List (List Byte × List Byte)) :
    ∀ fuel : Nat, (∀ kv ∈ ps, wfParam kv) →
      (encodeParams ps ++ [0]).length < fuel →
      parseParamsAux fuel (encodeParams ps ++ [0]) = .ok ps [] := by
  induction ps with
  | nil =>
    intro fuel _ hfuel
    match fuel, hfuel with
    | fuel + 1, _ =>
      show parseParamsAux (fuel + 1) [0] = .ok [] []
      rw [parseParamsAux_step _ _ (by simp)]
      rw [show readCString [0] = .ok [] [] from rfl]
      rfl
  | cons kv kvs ih =>
    intro fuel hwf hfuel
    obtain ⟨hk, hknul, hvnul, hku, hvu⟩ := hwf kv (by simp)
    match fuel, hfuel with
    | fuel + 1, hfuel =>
      have hbuf : encodeParams (kv :: kvs) ++ [0] =
          kv.1 ++ 0 :: (kv.2 ++ 0 :: (encodeParams kvs ++ [0])) := by
        simp [encodeParams]
      rw [hbuf]
      rw [parseParamsAux_step _ _ (by simp)]
      rw [readCString_append _ _ hknul hku]
      show (if kv.1 = [] then PRes.ok [] (kv.2 ++ 0 :: (encodeParams kvs ++ [0]))
        else
          match readCString (kv.2 ++ 0 :: (encodeParams kvs ++ [0])) with
          | .ok v rest2 =>
            (match parseParamsAux fuel rest2 with
             | .ok ps r => .ok ((kv.1, v) :: ps) r
             | .err => .err
             | .crash => .crash)
          | .err => .err
          | .crash => .crash) = .ok (kv :: kvs) []
      rw [if_neg hk]
      rw [readCString_append _ _ hvnul hvu]
      have hfuel2 : (encodeParams kvs ++ [0]).length < fuel := by
        rw [hbuf] at hfuel
        simp only [List.length_append, List.length_cons] at hfuel ⊢
        omega
      show (match parseParamsAux fuel (encodeParams kvs ++ [0]) with
        | PRes.ok ps r => PRes.ok ((kv.1, kv.2) :: ps) r
        | PRes.err => PRes.err
        | PRes.crash => PRes.crash) = .ok (kv :: kvs) []
      rw [ih fuel (fun x hx => hwf x (by simp [hx])) hfuel2]

theorem take4_foldBe (n : Nat) (r : List Byte) (h : n < 2 ^ 32) :
    ((beBytes4 n ++ r).take 4).foldl (fun acc b => acc * 256 + b) 0 = n := by
  rw [List.take_left' (by simp [beBytes4])]
  show (((0 * 256 + n / 16777216 % 256) * 256 + n / 65536 % 256) * 256 + n / 256 % 256) * 256
    + n % 256 = n
  omega

theorem pgDecodeStartup_encode (ver : Nat) (ps : List (List Byte × List Byte))
    (hver : ver < 2 ^ 32) (hnssl : ver ≠ 80877103)
    (hps : ∀ kv ∈ ps, wfParam kv)
    (hlen : (encodeParams ps).length + 9 < 2 ^ 32) :
    pgDecodeStartup (pgEncode (.startup ver ps)) = (.msg (.startup ver ps), false, []) := by
  have henc : pgEncode (.startup ver ps) =
      beBytes4 (4 + 4 + (encodeParams ps ++ [0]).length) ++
        (beBytes4 ver ++ (encodeParams ps ++ [0])) := by
    simp [pgEncode, List.append_assoc]
  rw [henc]
  unfold pgDecodeStartup
  dsimp only []
  rw [if_neg (by simp [beBytes4])]
  rw [take4_foldBe _ _ (by simp only [List.length_append, List.length_cons, List.length_nil] at *; omega)]
  rw [if_neg (by simp [beBytes4]; omega)]
  rw [if_neg (by omega)]
  have htake : (beBytes4 (4 + 4 + (encodeParams ps ++ [0]).length) ++
      (beBytes4 ver ++ (encodeParams ps ++ [0]))).take
        (4 + 4 + (encodeParams ps ++ [0]).length) =
      beBytes4 (4 + 4 + (encodeParams ps ++ [0]).length) ++
        (beBytes4 ver ++ (encodeParams ps ++ [0])) :=
    List.take_of_length_le (by simp [beBytes4]; omega)
  rw [htake]
  have hdropnil : (beBytes4 (4 + 4 + (encodeParams ps ++ [0]).length) ++
      (beBytes4 ver ++ (encodeParams ps ++ [0]))).drop
        (4 + 4 + (encodeParams ps ++ [0]).length) = [] :=
    List.drop_eq_nil_of_le (by simp [beBytes4]; omega)
  rw [hdropnil]
  have hd4 : (beBytes4 (4 + 4 + (encodeParams ps ++ [0]).length) ++
      (beBytes4 ver ++ (encodeParams ps ++ [0]))).drop 4 =
      beBytes4 ver ++ (encodeParams ps ++ [0]) := by rfl
  rw [hd4]
  rw [if_neg (by simp only [List.length_append, List.length_cons, List.length_nil, beBytes4]; omega)]
  rw [take4_foldBe _ _ hver]
  rw [if_neg hnssl]
  have hd4b : (beBytes4 ver ++ (encodeParams ps ++ [0])).drop 4 = encodeParams ps ++ [0] := by rfl
  rw [hd4b]
  have hpp := parseParamsAux_encode ps ((encodeParams ps ++ [0]).length + 1) hps (by omega)
  rw [hpp]
theorem pgDecodeRegular_frame (t : Byte) (body : List Byte)
    (hlen : 4 + body.length < 2 ^ 32) :
    pgDecodeRegular (t :: (beBytes4 (4 + body.length) ++ body)) =
      ((if t = 84 then pgRunBody (pbind getU16be parseFields) .rowDescription body
        else if t = 68 then pgRunBody (pbind getU16be parseCells) .dataRow body
        else if t = 81 then pgRunBody readCStringBytes .query body
        else if t = 80 then pgRunBody parseParseBody id body
        else .msg (.regular t body)), []) := by
  simp only [beBytes4, List.cons_append, List.nil_append]
  unfold pgDecodeRegular
  dsimp only []
  have hfold : (((4 + body.length) / 16777216 % 256 * 256 +
      (4 + body.length) / 65536 % 256) * 256 +
      (4 + body.length) / 256 % 256) * 256 + (4 + body.length) % 256 =
      4 + body.length := by omega
  rw [hfold]
  rw [if_neg (by simp only [List.length_cons]; omega)]
  rw [if_neg (by omega : ¬(4 + body.length < 4))]
  rw [show (1 : Nat) + (4 + body.length) =
      (t :: (4 + body.length) / 16777216 % 256 :: (4 + body.length) / 65536 % 256 ::
        (4 + body.length) / 256 % 256 :: (4 + body.length) % 256 :: body).length from by
    simp only [List.length_cons]; omega]
  rw [List.take_length, List.drop_length]
  rfl

theorem flatMap_beBytes4_length (pts : List Nat) :
    (pts.flatMap beBytes4).length = 4 * pts.length := by
  induction pts with
  | nil => rfl
  | cons p ps ih =>
    simp only [List.flatMap_cons, List.length_append, List.length_cons, ih, beBytes4,
      List.length_nil]
    omega

/-- A message that encodes and decodes back to a DIFFERENT message,
refuting the universally quantified claim: a `Query` whose text contains
an interior NUL byte is truncated at that NUL by `read_cstring`, so the
decoded message is `query []`, not `query [0]`. -/
theorem c5_counterexample :
    pgDecode (pgModeOf (.query [0])) (pgEncode (.query [0])) =
      (.msg (.query []), false, []) ∧
    PgMessage.query [] ≠ PgMessage.query [0] := by
  decide

/-- C5 (amended): for every *well-formed* Postgres message (strings free
of interior NULs, counts consistent, lengths within `u32`, `regular`
tag distinct from the specially-parsed tags), encoding with the Postgres
encoder and then decoding in the matching mode yields exactly the
original message, leaves the buffer empty, and ends in regular mode. -/
theorem c5_roundtrip (m : PgMessage) (hwf : pgWf m) :
    pgDecode (pgModeOf m) (pgEncode m) = (.msg m, pgFlagAfter m, []) := by
  cases m with
  | startup ver ps =>
    obtain ⟨hver, hnssl, hps, hlen⟩ := hwf
    exact pgDecodeStartup_encode ver ps hver hnssl hps hlen
  | sslRequest => decide
  | query q =>
    obtain ⟨hnul, hlen⟩ := hwf
    show (match pgDecodeRegular (81 :: (beBytes4 (4 + q.length + 1) ++ (q ++ [0]))) with
      | (o, rest) => (o, false, rest)) = (.msg (.query q), false, [])
    have harith : (4 : Nat) + q.length + 1 = 4 + (q ++ [0]).length := by
      simp only [List.length_append, List.length_cons, List.length_nil]
      omega
    rw [harith]
    have hlen2 : 4 + (q ++ [0]).length < 2 ^ 32 := by
      simp only [List.length_append, List.length_cons, List.length_nil]
      omega
    rw [pgDecodeRegular_frame 81 (q ++ [0]) hlen2]
    rw [if_neg (by decide), if_neg (by decide), if_pos rfl]
    show (pgRunBody readCStringBytes PgMessage.query (q ++ [0]), false, []) =
      (.msg (.query q), false, [])
    unfold pgRunBody
    rw [readCStringBytes_append q [] hnul]
  | dataRow vs =>
    obtain ⟨hcount, hcells, hlen⟩ := hwf
    show (match pgDecodeRegular (68 :: (beBytes4
        (4 + (beBytes2 vs.length ++ vs.flatMap encodeCell).length) ++
        (beBytes2 vs.length ++ vs.flatMap encodeCell))) with
      | (o, rest) => (o, false, rest)) = (.msg (.dataRow vs), false, [])
    rw [pgDecodeRegular_frame 68 (beBytes2 vs.length ++ vs.flatMap encodeCell) hlen]
    rw [if_neg (by decide), if_pos rfl]
    show (pgRunBody (pbind getU16be parseCells) PgMessage.dataRow
        (beBytes2 vs.length ++ vs.flatMap encodeCell), false, []) =
      (.msg (.dataRow vs), false, [])
    unfold pgRunBody
    rw [pbind_ok (getU16be_beBytes2 vs.length _ hcount)]
    have hc := parseCells_encode vs [] hcells
    rw [List.append_nil] at hc
    rw [hc]
  | rowDescription fs =>
    obtain ⟨hcount, hfields, hlen⟩ := hwf
    show (match pgDecodeRegular (84 :: (beBytes4
        (4 + (beBytes2 fs.length ++ fs.flatMap encodeField).length) ++
        (beBytes2 fs.length ++ fs.flatMap encodeField))) with
      | (o, rest) => (o, false, rest)) = (.msg (.rowDescription fs), false, [])
    rw [pgDecodeRegular_frame 84 (beBytes2 fs.length ++ fs.flatMap encodeField) hlen]
    rw [if_pos rfl]
    show (pgRunBody (pbind getU16be parseFields) PgMessage.rowDescription
        (beBytes2 fs.length ++ fs.flatMap encodeField), false, []) =
      (.msg (.rowDescription fs), false, [])
    unfold pgRunBody
    rw [pbind_ok (getU16be_beBytes2 fs.length _ hcount)]
    have hc := parseFields_encode fs [] hfields
    rw [List.append_nil] at hc
    rw [hc]
  | parseMsg st q pts =>
    obtain ⟨hstnul, hqnul, hcount, hpts, hlen⟩ := hwf
    show (match pgDecodeRegular (80 :: (beBytes4
        (4 + st.length + 1 + q.length + 1 + 2 + 4 * pts.length) ++
        (st ++ [0] ++ q ++ [0] ++ beBytes2 pts.length ++ pts.flatMap beBytes4))) with
      | (o, rest) => (o, false, rest)) = (.msg (.parseMsg st q pts), false, [])
    have hshape : st ++ [0] ++ q ++ [0] ++ beBytes2 pts.length ++ pts.flatMap beBytes4 =
        st ++ 0 :: (q ++ 0 :: (beBytes2 pts.length ++ pts.flatMap beBytes4)) := by
      simp [List.append_assoc]
    have harith : (4 : Nat) + st.length + 1 + q.length + 1 + 2 + 4 * pts.length =
        4 + (st ++ 0 :: (q ++ 0 :: (beBytes2 pts.length ++ pts.flatMap beBytes4))).length := by
      simp only [List.length_append, List.length_cons, List.length_nil, beBytes2,
        flatMap_beBytes4_length]
      omega
    rw [hshape, harith]
    have hlen2 : 4 + (st ++ 0 :: (q ++ 0 ::
        (beBytes2 pts.length ++ pts.flatMap beBytes4))).length < 2 ^ 32 := by
      rw [← harith]
      exact hlen
    rw [pgDecodeRegular_frame 80
      (st ++ 0 :: (q ++ 0 :: (beBytes2 pts.length ++ pts.flatMap beBytes4))) hlen2]
    rw [if_neg (by decide), if_neg (by decide), if_neg (by decide), if_pos rfl]
    show (pgRunBody parseParseBody id
        (st ++ 0 :: (q ++ 0 :: (beBytes2 pts.length ++ pts.flatMap beBytes4))), false, []) =
      (.msg (.parseMsg st q pts), false, [])
    unfold pgRunBody parseParseBody
    rw [pbind_ok (readCStringBytes_append st _ hstnul)]
    rw [pbind_ok (readCStringBytes_append q _ hqnul)]
    rw [pbind_ok (getU16be_beBytes2 pts.length _ hcount)]
    have hc := parseParamTypes_encode pts [] hpts
    rw [List.append_nil] at hc
    rw [pmap_ok hc]
    rfl
  | regular t payload =>
    obtain ⟨ht, h84, h68, h81, h80, hlen⟩ := hwf
    show (match pgDecodeRegular (t :: (beBytes4 (payload.length + 4) ++ payload)) with
      | (o, rest) => (o, false, rest)) = (.msg (.regular t payload), false, [])
    have harith : payload.length + 4 = 4 + payload.length := by omega
    rw [harith]
    rw [pgDecodeRegular_frame t payload (by omega)]
    rw [if_neg h84, if_neg h68, if_neg h81, if_neg h80]

theorem c5_witness :
    pgWf (.query (asciiBytes "SELECT 1")) ∧
    pgDecode (pgModeOf (.query (asciiBytes "SELECT 1")))
        (pgEncode (.query (asciiBytes "SELECT 1"))) =
      (.msg (.query (asciiBytes "SELECT 1")), false, []) :=
  ⟨⟨by decide, by decide⟩,
   c5_roundtrip (.query (asciiBytes "SELECT 1")) ⟨by decide, by decide⟩⟩
theorem leBytes_length (w n : Nat) : (leBytes w n).length = w := by
  induction w generalizing n with
  | zero => rfl
  | succ k ih => simp [leBytes, ih]

theorem leWord_leBytes (w n : Nat) (h : n < 256 ^ w) : leWord (leBytes w n) = n := by
  induction w generalizing n with
  | zero =>
    simp [leBytes, leWord]
    omega
  | succ k ih =>
    rw [pow_succ] at h
    simp only [leBytes, leWord]
    rw [ih (n / 256) (Nat.div_lt_of_lt_mul (by omega))]
    omega

theorem getU16le_leBytes2 (n : Nat) (r : List Byte) (h : n < 2 ^ 16) :
    getU16le (leBytes2 n ++ r) = .ok n r := by
  show PRes.ok (n % 256 + 256 * (n / 256 % 256)) r = .ok n r
  congr 1
  omega

theorem getU32le_leBytes4 (n : Nat) (r : List Byte) (h : n < 2 ^ 32) :
    getU32le (leBytes4 n ++ r) = .ok n r := by
  show PRes.ok (n % 256 + 256 * (n / 256 % 256 + 256 *
    (n / 256 / 256 % 256 + 256 * (n / 256 / 256 / 256 % 256)))) r = .ok n r
  congr 1
  omega

theorem getLenencInt_write (v : Nat) (hv : v < 2 ^ 64) (r : List Byte) :
    getLenencInt (writeLenencInt v ++ r) = .ok v r := by
  unfold writeLenencInt
  by_cases h1 : v < 251
  · rw [if_pos h1]
    show (if v ≤ 0xfa then PRes.ok v r else _) = .ok v r
    rw [if_pos (by omega)]
  · rw [if_neg h1]
    by_cases h2 : v < 65536
    · rw [if_pos h2]
      show PRes.ok (v % 256 + 256 * (v / 256 % 256)) r = .ok v r
      congr 1
      omega
    · rw [if_neg h2]
      by_cases h3 : v < 16777216
      · rw [if_pos h3]
        show PRes.ok (v % 256 + 256 * (v / 256 % 256) + 65536 * (v / 65536 % 256)) r
          = .ok v r
        congr 1
        omega
      · rw [if_neg h3]
        show (if 8 ≤ (leBytes 8 v ++ r).length then
            PRes.ok (leWord ((leBytes 8 v ++ r).take 8)) ((leBytes 8 v ++ r).drop 8)
          else .err) = .ok v r
        rw [if_pos (by simp [leBytes_length])]
        rw [List.take_left' (leBytes_length 8 v), List.drop_left' (leBytes_length 8 v)]
        rw [leWord_leBytes 8 v (by rw [show (256 : Nat) ^ 8 = 2 ^ 64 from by norm_num]; exact hv)]

theorem getLenencString_write (s r : List Byte) (h : s.length < 2 ^ 64) :
    getLenencString (writeLenencString s ++ r) = .ok s r := by
  unfold getLenencString writeLenencString
  rw [List.append_assoc]
  rw [pbind_ok (getLenencInt_write s.length h (s ++ r))]
  show (if (s ++ r).length < s.length then PRes.err else
    .ok ((s ++ r).take s.length) ((s ++ r).drop s.length)) = .ok s r
  rw [if_neg (by simp)]
  rw [List.take_left, List.drop_left]

theorem contByte_add (x : Nat) (hx : x < 64) : contByte (0x80 + x) = true := by
  simp only [contByte, Bool.and_eq_true, decide_eq_true_eq]
  exact ⟨Nat.le_add_right _ _,
    Nat.lt_of_lt_of_le (Nat.add_lt_add_left hx 0x80) (by decide)⟩

theorem utf8LossyCps_encodeChar (c : Nat) (h : validScalar c) (rest : List Byte) :
    utf8LossyCps (utf8EncodeChar c ++ rest) = c :: utf8LossyCps rest := by
  obtain ⟨hlt0, hsur0⟩ := h
  have hlt : (c : Nat) < 0x110000 := hlt0
  have hsur : ¬((0xD800 : Nat) ≤ c ∧ (c : Nat) ≤ 0xDFFF) := hsur0
  clear hlt0 hsur0
  unfold utf8EncodeChar
  by_cases h1 : (c : Nat) < 0x80
  · rw [if_pos h1]
    show utf8LossyCps (c :: rest) = c :: utf8LossyCps rest
    conv_lhs => unfold utf8LossyCps
    rw [if_pos h1]
  · rw [if_neg h1]
    have h1' : (0x80 : Nat) ≤ c := Nat.le_of_not_lt h1
    by_cases h2 : (c : Nat) < 0x800
    · rw [if_pos h2]
      show utf8LossyCps ((0xC0 + c / 64) :: (0x80 + c % 64) :: rest) = c :: utf8LossyCps rest
      conv_lhs => unfold utf8LossyCps
      have hA : ¬((0xC0 + c / 64 : Nat) < 0x80) := by omega
      have hB : ¬((0xC0 + c / 64 : Nat) < 0xC2) := by omega
      have hC : (0xC0 + c / 64 : Nat) < 0xE0 := by omega
      rw [if_neg hA, if_neg hB, if_pos hC]
      dsimp only []
      have hcb : contByte (0x80 + c % 64) = true :=
        contByte_add (c % 64) (Nat.mod_lt c (by decide))
      rw [if_pos hcb]
      have e1 : (0xC0 + c / 64 : Nat) - 0xC0 = c / 64 := by omega
      have e2 : (0x80 + c % 64 : Nat) - 0x80 = c % 64 := by omega
      rw [e1, e2]
      have hv : c / 64 * 64 + c % 64 = c := by omega
      rw [hv]
    · rw [if_neg h2]
      have h2' : (0x800 : Nat) ≤ c := Nat.le_of_not_lt h2
      by_cases h3 : (c : Nat) < 0x10000
      · rw [if_pos h3]
        show utf8LossyCps ((0xE0 + c / 4096) :: (0x80 + c / 64 % 64) :: (0x80 + c % 64) :: rest)
          = c :: utf8LossyCps rest
        conv_lhs => unfold utf8LossyCps
        have hA : ¬((0xE0 + c / 4096 : Nat) < 0x80) := by omega
        have hB : ¬((0xE0 + c / 4096 : Nat) < 0xC2) := by omega
        have hC : ¬((0xE0 + c / 4096 : Nat) < 0xE0) := by omega
        have hD : (0xE0 + c / 4096 : Nat) < 0xF0 := by omega
        rw [if_neg hA, if_neg hB, if_neg hC, if_pos hD]
        dsimp only []
        have hcb : contByte (0x80 + c % 64) = true :=
          contByte_add (c % 64) (Nat.mod_lt c (by decide))
        have e1 : (0xE0 + c / 4096 : Nat) - 0xE0 = c / 4096 := by omega
        have e2 : (0x80 + c / 64 % 64 : Nat) - 0x80 = c / 64 % 64 := by omega
        have e3 : (0x80 + c % 64 : Nat) - 0x80 = c % 64 := by omega
        have hv : c / 4096 * 4096 + c / 64 % 64 * 64 + c % 64 = c := by omega
        by_cases hE0 : (0xE0 : Nat) + c / 4096 = 0xE0
        · rw [if_pos hE0]
          by_cases hED : (0xE0 : Nat) + c / 4096 = 0xED
          · omega
          · rw [if_neg hED]
            have hcond : (decide ((0xA0 : Nat) ≤ 0x80 + c / 64 % 64) &&
                decide ((0x80 + c / 64 % 64 : Nat) < 0xC0)) = true := by
              simp only [Bool.and_eq_true, decide_eq_true_eq]
              omega
            rw [if_pos hcond]
            rw [if_pos hcb, e1, e2, e3, hv]
        · rw [if_neg hE0]
          by_cases hED : (0xE0 : Nat) + c / 4096 = 0xED
          · rw [if_pos hED]
            have hcond : (decide ((0x80 : Nat) ≤ 0x80 + c / 64 % 64) &&
                decide ((0x80 + c / 64 % 64 : Nat) < 0xA0)) = true := by
              simp only [Bool.and_eq_true, decide_eq_true_eq]
              omega
            rw [if_pos hcond]
            rw [if_pos hcb, e1, e2, e3, hv]
          · rw [if_neg hED]
            have hcond : (decide ((0x80 : Nat) ≤ 0x80 + c / 64 % 64) &&
                decide ((0x80 + c / 64 % 64 : Nat) < 0xC0)) = true := by
              simp only [Bool.and_eq_true, decide_eq_true_eq]
              omega
            rw [if_pos hcond]
            rw [if_pos hcb, e1, e2, e3, hv]
      · rw [if_neg h3]
        have h3' : (0x10000 : Nat) ≤ c := Nat.le_of_not_lt h3
        show utf8LossyCps ((0xF0 + c / 262144) :: (0x80 + c / 4096 % 64) ::
            (0x80 + c / 64 % 64) :: (0x80 + c % 64) :: rest) = c :: utf8LossyCps rest
        conv_lhs => unfold utf8LossyCps
        have hA : ¬((0xF0 + c / 262144 : Nat) < 0x80) := by omega
        have hB : ¬((0xF0 + c / 262144 : Nat) < 0xC2) := by omega
        have hC : ¬((0xF0 + c / 262144 : Nat) < 0xE0) := by omega
        have hD : ¬((0xF0 + c / 262144 : Nat) < 0xF0) := by omega
        have hE : (0xF0 + c / 262144 : Nat) < 0xF5 := by omega
        rw [if_neg hA, if_neg hB, if_neg hC, if_neg hD, if_pos hE]
        dsimp only []
        have hcb1 : contByte (0x80 + c / 64 % 64) = true :=
          contByte_add (c / 64 % 64) (Nat.mod_lt (c / 64) (by decide))
        have hcb0 : contByte (0x80 + c % 64) = true :=
          contByte_add (c % 64) (Nat.mod_lt c (by decide))
        have e1 : (0xF0 + c / 262144 : Nat) - 0xF0 = c / 262144 := by omega
        have e2 : (0x80 + c / 4096 % 64 : Nat) - 0x80 = c / 4096 % 64 := by omega
        have e3 : (0x80 + c / 64 % 64 : Nat) - 0x80 = c / 64 % 64 := by omega
        have e4 : (0x80 + c % 64 : Nat) - 0x80 = c % 64 := by omega
        have hv : c / 262144 * 262144 + c / 4096 % 64 * 4096 + c / 64 % 64 * 64 + c % 64 = c := by
          omega
        by_cases hF0 : (0xF0 : Nat) + c / 262144 = 0xF0
        · rw [if_pos hF0]
          by_cases hF4 : (0xF0 : Nat) + c / 262144 = 0xF4
          · omega
          · rw [if_neg hF4]
            have hcond : (decide ((0x90 : Nat) ≤ 0x80 + c / 4096 % 64) &&
                decide ((0x80 + c / 4096 % 64 : Nat) < 0xC0)) = true := by
              simp only [Bool.and_eq_true, decide_eq_true_eq]
              omega
            rw [if_pos hcond]
            rw [if_pos hcb1]
            rw [if_pos hcb0, e1, e2, e3, e4, hv]
        · rw [if_neg hF0]
          by_cases hF4 : (0xF0 : Nat) + c / 262144 = 0xF4
          · rw [if_pos hF4]
            have hcond : (decide ((0x80 : Nat) ≤ 0x80 + c / 4096 % 64) &&
                decide ((0x80 + c / 4096 % 64 : Nat) < 0x90)) = true := by
              simp only [Bool.and_eq_true, decide_eq_true_eq]
              omega
            rw [if_pos hcond]
            rw [if_pos hcb1]
            rw [if_pos hcb0, e1, e2, e3, e4, hv]
          · rw [if_neg hF4]
            have hcond : (decide ((0x80 : Nat) ≤ 0x80 + c / 4096 % 64) &&
                decide ((0x80 + c / 4096 % 64 : Nat) < 0xC0)) = true := by
              simp only [Bool.and_eq_true, decide_eq_true_eq]
              omega
            rw [if_pos hcond]
            rw [if_pos hcb1]
            rw [if_pos hcb0, e1, e2, e3, e4, hv]

theorem utf8LossyCps_utf8Encode (cs : List Cp) (h : ∀ c ∈ cs, validScalar c) :
    utf8LossyCps (utf8Encode cs) = cs := by
  induction cs with
  | nil => rfl
  | cons c cs ih =>
    have hc := h c (List.mem_cons_self c cs)
    have hrest : ∀ x ∈ cs, validScalar x := fun x hx => h x (List.mem_cons_of_mem c hx)
    show utf8LossyCps (utf8EncodeChar c ++ utf8Encode cs) = c :: cs
    rw [utf8LossyCps_encodeChar c hc, ih hrest]

theorem skipN_one (b : Byte) (X : List Byte) : skipN 1 (b :: X) = .ok () X := by
  show (if 1 ≤ (b :: X).length then PRes.ok () ((b :: X).drop 1) else .crash) = .ok () X
  rw [if_pos (by simp)]
  rfl

theorem getU8_cons (b : Byte) (X : List Byte) : getU8 (b :: X) = .ok b X := rfl

theorem parseOkPacket_encode (seq caps ar lid st w : Nat) (info : List Byte)
    (h41 : hasFlag caps clientProtocol41 = true)
    (har : ar < 2 ^ 64) (hlid : lid < 2 ^ 64) (hst : st < 2 ^ 16) (hw : w < 2 ^ 16) :
    parseOkPacket seq caps (0x00 :: (writeLenencInt ar ++ (writeLenencInt lid ++
        (leBytes2 st ++ (leBytes2 w ++ info))))) =
      .ok ⟨seq, ar, lid, st, w, info⟩ [] := by
  unfold parseOkPacket
  rw [pbind_ok (skipN_one 0x00 _)]
  rw [pbind_ok (getLenencInt_write ar har _)]
  rw [pbind_ok (getLenencInt_write lid hlid _)]
  rw [if_pos h41]
  rw [pbind_ok (getU16le_leBytes2 st _ hst)]
  rw [pbind_ok (getU16le_leBytes2 w _ hw)]

theorem parseErrPacket_encode (seq caps code : Nat) (sqlSt : List Byte) (msg : List Cp)
    (h41 : hasFlag caps clientProtocol41 = true) (hcode : code < 2 ^ 16)
    (hsql : sqlSt.length = 5) (hmsg : ∀ x ∈ msg, validScalar x) :
    parseErrPacket seq caps (0xff :: (leBytes2 code ++
        (0x23 :: (sqlSt ++ utf8Encode msg)))) =
      .ok ⟨seq, code, sqlSt, msg⟩ [] := by
  unfold parseErrPacket
  rw [pbind_ok (skipN_one 0xff _)]
  rw [pbind_ok (getU16le_leBytes2 code _ hcode)]
  rw [if_pos h41]
  rw [pbind_ok (skipN_one 0x23 _)]
  have ht := takeN_exact sqlSt (utf8Encode msg)
  rw [hsql] at ht
  rw [pbind_ok ht]
  rw [utf8LossyCps_utf8Encode msg hmsg]

theorem parseEofPacket_encode (seq w st : Nat) (hw : w < 2 ^ 16) (hst : st < 2 ^ 16) :
    parseEofPacket seq (0xfe :: (leBytes2 w ++ leBytes2 st)) = .ok ⟨seq, w, st⟩ [] := by
  unfold parseEofPacket
  rw [pbind_ok (skipN_one 0xfe _)]
  show PRes.ok (⟨seq, w % 256 + 256 * (w / 256 % 256), st % 256 + 256 * (st / 256 % 256)⟩ :
    EofPacket) [] = .ok ⟨seq, w, st⟩ []
  have e1 : w % 256 + 256 * (w / 256 % 256) = w := by omega
  have e2 : st % 256 + 256 * (st / 256 % 256) = st := by omega
  rw [e1, e2]

theorem parseColumnDefinition_encode (seq cs clen ct fl dec : Nat)
    (cat sch tab otab nm onm : List Byte)
    (hcat : cat.length < 2 ^ 64) (hsch : sch.length < 2 ^ 64) (htab : tab.length < 2 ^ 64)
    (hotab : otab.length < 2 ^ 64) (hnm : nm.length < 2 ^ 64) (honm : onm.length < 2 ^ 64)
    (hcs : cs < 2 ^ 16) (hclen : clen < 2 ^ 32) (hfl : fl < 2 ^ 16) :
    parseColumnDefinition seq (writeLenencString cat ++ (writeLenencString sch ++
        (writeLenencString tab ++ (writeLenencString otab ++ (writeLenencString nm ++
        (writeLenencString onm ++ (0x0c :: (leBytes2 cs ++ (leBytes4 clen ++
        (ct :: (leBytes2 fl ++ (dec :: [0, 0])))))))))))) =
      .ok ⟨seq, cat, sch, tab, otab, nm, onm, cs, clen, ct, fl, dec⟩ [] := by
  unfold parseColumnDefinition
  rw [pbind_ok (getLenencString_write cat _ hcat)]
  rw [pbind_ok (getLenencString_write sch _ hsch)]
  rw [pbind_ok (getLenencString_write tab _ htab)]
  rw [pbind_ok (getLenencString_write otab _ hotab)]
  rw [pbind_ok (getLenencString_write nm _ hnm)]
  rw [pbind_ok (getLenencString_write onm _ honm)]
  rw [pbind_ok (skipN_one 0x0c _)]
  rw [pbind_ok (getU16le_leBytes2 cs _ hcs)]
  rw [pbind_ok (getU32le_leBytes4 clen _ hclen)]
  rw [pbind_ok (getU8_cons ct _)]
  rw [pbind_ok (getU16le_leBytes2 fl _ hfl)]
  rw [pbind_ok (getU8_cons dec _)]
  rw [pbind_ok (show skipN 2 [0, 0] = PRes.ok () [] from by decide)]

theorem myDecode_command_ok (caps cnt seq : Nat) (side : Bool) (body : List Byte)
    (hs : seq < 256) (hlen : body.length + 1 < 2 ^ 24) :
    myDecode ⟨.command, caps, side, cnt⟩
        (packetHeader (body.length + 1) seq ++ (0x00 :: body)) =
      (match parseOkPacket seq caps (0x00 :: body) with
       | .ok o _ => (.msg (.ok o), ⟨.command, caps, side, cnt⟩, [])
       | .err => (.errOut, ⟨.command, caps, side, cnt⟩, [])
       | .crash => (.crash, ⟨.command, caps, side, cnt⟩, [])) := by
  simp only [packetHeader, List.cons_append, List.nil_append]
  unfold myDecode
  dsimp only []
  have hfold : (body.length + 1) % 256 + 256 * ((body.length + 1) / 256 % 256) +
      65536 * ((body.length + 1) / 65536 % 256) = body.length + 1 := by omega
  rw [hfold]
  rw [Nat.mod_eq_of_lt hs]
  rw [if_neg (by simp only [List.length_cons]; omega)]
  rw [show body.length + 1 = ((0x00 : Byte) :: body).length from by
    simp only [List.length_cons]]
  rw [List.take_length, List.drop_length]
  dsimp only []
  have hb1 : ¬((!side) = true ∧ (0x00 : Byte) = 0x03) := by simp
  have hb2 : ¬(side = true ∧ (0x00 : Byte) ≠ 0x00 ∧ (0x00 : Byte) ≠ 0xff ∧
      (0x00 : Byte) ≠ 0xfe) := by simp
  rw [if_neg hb1, if_neg hb2, if_pos rfl]

theorem myDecode_command_err (caps cnt seq : Nat) (side : Bool) (body : List Byte)
    (hs : seq < 256) (hlen : body.length + 1 < 2 ^ 24) :
    myDecode ⟨.command, caps, side, cnt⟩
        (packetHeader (body.length + 1) seq ++ (0xff :: body)) =
      (match parseErrPacket seq caps (0xff :: body) with
       | .ok e _ => (.msg (.err e), ⟨.command, caps, side, cnt⟩, [])
       | .err => (.errOut, ⟨.command, caps, side, cnt⟩, [])
       | .crash => (.crash, ⟨.command, caps, side, cnt⟩, [])) := by
  simp only [packetHeader, List.cons_append, List.nil_append]
  unfold myDecode
  dsimp only []
  have hfold : (body.length + 1) % 256 + 256 * ((body.length + 1) / 256 % 256) +
      65536 * ((body.length + 1) / 65536 % 256) = body.length + 1 := by omega
  rw [hfold]
  rw [Nat.mod_eq_of_lt hs]
  rw [if_neg (by simp only [List.length_cons]; omega)]
  rw [show body.length + 1 = ((0xff : Byte) :: body).length from by
    simp only [List.length_cons]]
  rw [List.take_length, List.drop_length]
  dsimp only []
  have hb1 : ¬((!side) = true ∧ (0xff : Byte) = 0x03) := by simp
  have hb2 : ¬(side = true ∧ (0xff : Byte) ≠ 0x00 ∧ (0xff : Byte) ≠ 0xff ∧
      (0xff : Byte) ≠ 0xfe) := by simp
  have hb3 : ¬((0xff : Byte) = 0x00) := by simp
  rw [if_neg hb1, if_neg hb2, if_neg hb3, if_pos rfl]

theorem myDecode_command_eof (caps cnt seq : Nat) (side : Bool) (body : List Byte)
    (hs : seq < 256) (hsmall : body.length < 8) :
    myDecode ⟨.command, caps, side, cnt⟩
        (packetHeader (body.length + 1) seq ++ (0xfe :: body)) =
      (match parseEofPacket seq (0xfe :: body) with
       | .ok e _ => (.msg (.eof e), ⟨.command, caps, side, cnt⟩, [])
       | .err => (.errOut, ⟨.command, caps, side, cnt⟩, [])
       | .crash => (.crash, ⟨.command, caps, side, cnt⟩, [])) := by
  simp only [packetHeader, List.cons_append, List.nil_append]
  unfold myDecode
  dsimp only []
  have hfold : (body.length + 1) % 256 + 256 * ((body.length + 1) / 256 % 256) +
      65536 * ((body.length + 1) / 65536 % 256) = body.length + 1 := by omega
  rw [hfold]
  rw [Nat.mod_eq_of_lt hs]
  rw [if_neg (by simp only [List.length_cons]; omega)]
  rw [show body.length + 1 = ((0xfe : Byte) :: body).length from by
    simp only [List.length_cons]]
  rw [List.take_length, List.drop_length]
  dsimp only []
  have hb1 : ¬((!side) = true ∧ (0xfe : Byte) = 0x03) := by simp
  have hb2 : ¬(side = true ∧ (0xfe : Byte) ≠ 0x00 ∧ (0xfe : Byte) ≠ 0xff ∧
      (0xfe : Byte) ≠ 0xfe) := by simp
  have hb3 : ¬((0xfe : Byte) = 0x00) := by simp
  have hb4 : ¬((0xfe : Byte) = 0xff) := by simp
  have hb5 : (0xfe : Byte) = 0xfe ∧ ((0xfe : Byte) :: body).length < 9 := by
    refine ⟨rfl, ?_⟩
    simp only [List.length_cons]
    omega
  rw [if_neg hb1, if_neg hb2, if_neg hb3, if_neg hb4, if_pos hb5]

theorem myDecode_columns (caps cnt r seq : Nat) (side : Bool) (b : Byte) (body : List Byte)
    (hs : seq < 256) (hlen : body.length + 1 < 2 ^ 24) (hbig : 8 ≤ body.length) :
    myDecode ⟨.readingColumns r, caps, side, cnt⟩
        (packetHeader (body.length + 1) seq ++ (b :: body)) =
      (match parseColumnDefinition seq (b :: body) with
       | .ok cd _ => (.msg (.columnDefinition cd),
           (if r - 1 = 0 then
             (if hasFlag caps clientDeprecateEof = true then
               (⟨.readingRows, caps, side, cnt⟩ : MyCodec)
              else ⟨.readingColumns r, caps, side, cnt⟩)
            else ⟨.readingColumns (r - 1), caps, side, cnt⟩), [])
       | .err => (.errOut, ⟨.readingColumns r, caps, side, cnt⟩, [])
       | .crash => (.crash, ⟨.readingColumns r, caps, side, cnt⟩, [])) := by
  simp only [packetHeader, List.cons_append, List.nil_append]
  unfold myDecode
  dsimp only []
  have hfold : (body.length + 1) % 256 + 256 * ((body.length + 1) / 256 % 256) +
      65536 * ((body.length + 1) / 65536 % 256) = body.length + 1 := by omega
  rw [hfold]
  rw [Nat.mod_eq_of_lt hs]
  rw [if_neg (by simp only [List.length_cons]; omega)]
  rw [show body.length + 1 = (b :: body).length from by
    simp only [List.length_cons]]
  rw [List.take_length, List.drop_length]
  dsimp only []
  have hb1 : ¬(b = 0xfe ∧ (b :: body).length < 9 ∧
      (!hasFlag caps clientDeprecateEof) = true) := by
    rintro ⟨-, h9, -⟩
    simp only [List.length_cons] at h9
    omega
  rw [if_neg hb1]

theorem writeLenencString_cons (s : List Byte) :
    ∃ b tl, writeLenencString s = b :: tl := by
  unfold writeLenencString writeLenencInt
  by_cases h1 : s.length < 251
  · rw [if_pos h1]
    exact ⟨_, _, rfl⟩
  · rw [if_neg h1]
    by_cases h2 : s.length < 65536
    · rw [if_pos h2]
      exact ⟨_, _, rfl⟩
    · rw [if_neg h2]
      by_cases h3 : s.length < 16777216
      · rw [if_pos h3]
        exact ⟨_, _, rfl⟩
      · rw [if_neg h3]
        exact ⟨_, _, rfl⟩

theorem myDecode_encodeOk (caps cnt : Nat) (side : Bool) (o : OkPacket)
    (h41 : hasFlag caps clientProtocol41 = true) (hwf : wfOk o) :
    myDecode ⟨.command, caps, side, cnt⟩ (encodeOk caps o) =
      (.msg (.ok o), ⟨.command, caps, side, cnt⟩, []) := by
  obtain ⟨hseq, har, hlid, hst, hw, hlen⟩ := hwf
  unfold encodeOk
  dsimp only []
  rw [if_pos h41]
  have hshape : ([0x00] ++ writeLenencInt o.affectedRows ++ writeLenencInt o.lastInsertId ++
      (leBytes2 o.statusFlags ++ leBytes2 o.warnings) ++ o.info) =
      0x00 :: (writeLenencInt o.affectedRows ++ (writeLenencInt o.lastInsertId ++
        (leBytes2 o.statusFlags ++ (leBytes2 o.warnings ++ o.info)))) := by
    simp [List.append_assoc]
  rw [hshape]
  rw [show ((0x00 : Byte) :: (writeLenencInt o.affectedRows ++ (writeLenencInt o.lastInsertId ++
      (leBytes2 o.statusFlags ++ (leBytes2 o.warnings ++ o.info))))).length =
      (writeLenencInt o.affectedRows ++ (writeLenencInt o.lastInsertId ++
        (leBytes2 o.statusFlags ++ (leBytes2 o.warnings ++ o.info)))).length + 1 from by
    simp only [List.length_cons]]
  have hl24 : (writeLenencInt o.affectedRows ++ (writeLenencInt o.lastInsertId ++
      (leBytes2 o.statusFlags ++ (leBytes2 o.warnings ++ o.info)))).length + 1 < 2 ^ 24 := by
    simp only [List.length_append, leBytes2, leBytes_length]
    omega
  rw [myDecode_command_ok caps cnt o.sequenceId side _ hseq hl24]
  rw [parseOkPacket_encode o.sequenceId caps o.affectedRows o.lastInsertId o.statusFlags
    o.warnings o.info h41 har hlid hst hw]

theorem myDecode_encodeErr (caps cnt : Nat) (side : Bool) (e : ErrPacket)
    (h41 : hasFlag caps clientProtocol41 = true) (hwf : wfErr e) :
    myDecode ⟨.command, caps, side, cnt⟩ (encodeErr caps e) =
      (.msg (.err e), ⟨.command, caps, side, cnt⟩, []) := by
  obtain ⟨hseq, hcode, hsql, hmsg, hlen⟩ := hwf
  unfold encodeErr
  dsimp only []
  rw [if_pos h41]
  have hshape : ([0xff] ++ leBytes2 e.errorCode ++ ([0x23] ++ e.sqlState) ++
      utf8Encode e.errorMessage) =
      0xff :: (leBytes2 e.errorCode ++ (0x23 :: (e.sqlState ++ utf8Encode e.errorMessage))) := by
    simp [List.append_assoc]
  rw [hshape]
  rw [show ((0xff : Byte) :: (leBytes2 e.errorCode ++ (0x23 :: (e.sqlState ++
      utf8Encode e.errorMessage)))).length =
      (leBytes2 e.errorCode ++ (0x23 :: (e.sqlState ++
        utf8Encode e.errorMessage))).length + 1 from by
    simp only [List.length_cons]]
  have hl24 : (leBytes2 e.errorCode ++ (0x23 :: (e.sqlState ++
      utf8Encode e.errorMessage))).length + 1 < 2 ^ 24 := by
    simp only [List.length_append, List.length_cons, leBytes2, leBytes_length]
    omega
  rw [myDecode_command_err caps cnt e.sequenceId side _ hseq hl24]
  rw [parseErrPacket_encode e.sequenceId caps e.errorCode e.sqlState e.errorMessage
    h41 hcode hsql hmsg]

theorem myDecode_encodeEof (caps cnt : Nat) (side : Bool) (e : EofPacket)
    (hwf : wfEof e) :
    myDecode ⟨.command, caps, side, cnt⟩ (encodeEof e) =
      (.msg (.eof e), ⟨.command, caps, side, cnt⟩, []) := by
  obtain ⟨hseq, hw, hst⟩ := hwf
  unfold encodeEof
  dsimp only []
  have hshape : ([0xfe] ++ leBytes2 e.warnings ++ leBytes2 e.statusFlags) =
      0xfe :: (leBytes2 e.warnings ++ leBytes2 e.statusFlags) := by
    simp [List.append_assoc]
  rw [hshape]
  rw [show ((0xfe : Byte) :: (leBytes2 e.warnings ++ leBytes2 e.statusFlags)).length =
      (leBytes2 e.warnings ++ leBytes2 e.statusFlags).length + 1 from by
    simp only [List.length_cons]]
  have hsmall : (leBytes2 e.warnings ++ leBytes2 e.statusFlags).length < 8 := by
    simp only [List.length_append, leBytes2, leBytes_length]
    omega
  rw [myDecode_command_eof caps cnt e.sequenceId side _ hseq hsmall]
  rw [parseEofPacket_encode e.sequenceId e.warnings e.statusFlags hw hst]

theorem myDecode_encodeColDef (caps cnt r : Nat) (side : Bool) (c : ColumnDefinition)
    (hwf : wfColDef c) :
    (myDecode ⟨.readingColumns r, caps, side, cnt⟩ (encodeColumnDefinition c)).1 =
      .msg (.columnDefinition c) ∧
    (myDecode ⟨.readingColumns r, caps, side, cnt⟩ (encodeColumnDefinition c)).2.2 = [] := by
  obtain ⟨hseq, hcs, hclen, hct, hfl, hdec, hlen⟩ := hwf
  have hplen : (encodeColumnDefinition c).length =
      (writeLenencString c.catalog ++ writeLenencString c.schema ++
        writeLenencString c.table ++ writeLenencString c.orgTable ++
        writeLenencString c.name ++ writeLenencString c.orgName ++
        [0x0c] ++ leBytes2 c.characterSet ++ leBytes4 c.columnLength ++
        [c.columnType % 256] ++ leBytes2 c.flags ++ [c.decimals % 256] ++ [0, 0]).length + 4 := by
    unfold encodeColumnDefinition
    simp [packetHeader]
  rw [hplen] at hlen
  unfold encodeColumnDefinition
  dsimp only []
  rw [Nat.mod_eq_of_lt hct, Nat.mod_eq_of_lt hdec]
  obtain ⟨b, tl, hbt⟩ := writeLenencString_cons c.catalog
  have hshape : (writeLenencString c.catalog ++ writeLenencString c.schema ++
      writeLenencString c.table ++ writeLenencString c.orgTable ++
      writeLenencString c.name ++ writeLenencString c.orgName ++
      [0x0c] ++ leBytes2 c.characterSet ++ leBytes4 c.columnLength ++
      [c.columnType] ++ leBytes2 c.flags ++ [c.decimals] ++ [0, 0]) =
      b :: (tl ++ (writeLenencString c.schema ++
        (writeLenencString c.table ++ (writeLenencString c.orgTable ++
        (writeLenencString c.name ++ (writeLenencString c.orgName ++
        (0x0c :: (leBytes2 c.characterSet ++ (leBytes4 c.columnLength ++
        (c.columnType :: (leBytes2 c.flags ++ (c.decimals :: [0, 0])))))))))))) := by
    rw [hbt]
    simp [List.append_assoc]
  rw [hshape]
  rw [show ((b : Byte) :: (tl ++ (writeLenencString c.schema ++
      (writeLenencString c.table ++ (writeLenencString c.orgTable ++
      (writeLenencString c.name ++ (writeLenencString c.orgName ++
      (0x0c :: (leBytes2 c.characterSet ++ (leBytes4 c.columnLength ++
      (c.columnType :: (leBytes2 c.flags ++ (c.decimals :: [0, 0]))))))))))))).length =
      (tl ++ (writeLenencString c.schema ++
        (writeLenencString c.table ++ (writeLenencString c.orgTable ++
        (writeLenencString c.name ++ (writeLenencString c.orgName ++
        (0x0c :: (leBytes2 c.characterSet ++ (leBytes4 c.columnLength ++
        (c.columnType :: (leBytes2 c.flags ++ (c.decimals :: [0, 0])))))))))))).length + 1 from by
    simp only [List.length_cons]]
  have htl : (writeLenencString c.catalog).length = tl.length + 1 := by
    rw [hbt]
    simp only [List.length_cons]
  have hl24 : (tl ++ (writeLenencString c.schema ++
      (writeLenencString c.table ++ (writeLenencString c.orgTable ++
      (writeLenencString c.name ++ (writeLenencString c.orgName ++
      (0x0c :: (leBytes2 c.characterSet ++ (leBytes4 c.columnLength ++
      (c.columnType :: (leBytes2 c.flags ++ (c.decimals :: [0, 0])))))))))))).length + 1 <
      2 ^ 24 := by
    simp only [List.length_append, List.length_cons, List.length_nil, leBytes2, leBytes4,
      leBytes_length] at hlen ⊢
    omega
  have hbig : 8 ≤ (tl ++ (writeLenencString c.schema ++
      (writeLenencString c.table ++ (writeLenencString c.orgTable ++
      (writeLenencString c.name ++ (writeLenencString c.orgName ++
      (0x0c :: (leBytes2 c.characterSet ++ (leBytes4 c.columnLength ++
      (c.columnType :: (leBytes2 c.flags ++ (c.decimals :: [0, 0])))))))))))).length := by
    simp only [List.length_append, List.length_cons, List.length_nil, leBytes2, leBytes4,
      leBytes_length]
    omega
  rw [myDecode_columns caps cnt r c.sequenceId side b _ hseq hl24 hbig]
  have hlens : ∀ s : List Byte, s.length ≤ (writeLenencString s).length := by
    intro s
    simp only [writeLenencString, List.length_append]
    omega
  have hrepack : (b : Byte) :: (tl ++ (writeLenencString c.schema ++
      (writeLenencString c.table ++ (writeLenencString c.orgTable ++
      (writeLenencString c.name ++ (writeLenencString c.orgName ++
      (0x0c :: (leBytes2 c.characterSet ++ (leBytes4 c.columnLength ++
      (c.columnType :: (leBytes2 c.flags ++ (c.decimals :: [0, 0])))))))))))) =
      writeLenencString c.catalog ++ (writeLenencString c.schema ++
      (writeLenencString c.table ++ (writeLenencString c.orgTable ++
      (writeLenencString c.name ++ (writeLenencString c.orgName ++
      (0x0c :: (leBytes2 c.characterSet ++ (leBytes4 c.columnLength ++
      (c.columnType :: (leBytes2 c.flags ++ (c.decimals :: [0, 0]))))))))))) := by
    rw [hbt]
    rfl
  rw [hrepack]
  have hcat2 : c.catalog.length < 2 ^ 64 := by
    have h1 := hlens c.catalog
    simp only [List.length_append, List.length_cons, List.length_nil, leBytes2, leBytes4,
      leBytes_length] at hlen
    omega
  have hsch2 : c.schema.length < 2 ^ 64 := by
    have h1 := hlens c.schema
    simp only [List.length_append, List.length_cons, List.length_nil, leBytes2, leBytes4,
      leBytes_length] at hlen
    omega
  have htab2 : c.table.length < 2 ^ 64 := by
    have h1 := hlens c.table
    simp only [List.length_append, List.length_cons, List.length_nil, leBytes2, leBytes4,
      leBytes_length] at hlen
    omega
  have hotab2 : c.orgTable.length < 2 ^ 64 := by
    have h1 := hlens c.orgTable
    simp only [List.length_append, List.length_cons, List.length_nil, leBytes2, leBytes4,
      leBytes_length] at hlen
    omega
  have hnm2 : c.name.length < 2 ^ 64 := by
    have h1 := hlens c.name
    simp only [List.length_append, List.length_cons, List.length_nil, leBytes2, leBytes4,
      leBytes_length] at hlen
    omega
  have honm2 : c.orgName.length < 2 ^ 64 := by
    have h1 := hlens c.orgName
    simp only [List.length_append, List.length_cons, List.length_nil, leBytes2, leBytes4,
      leBytes_length] at hlen
    omega
  rw [parseColumnDefinition_encode c.sequenceId c.characterSet c.columnLength c.columnType
    c.flags c.decimals c.catalog c.schema c.table c.orgTable c.name c.orgName
    hcat2 hsch2 htab2 hotab2 hnm2 honm2 hcs hclen hfl]
  exact ⟨rfl, rfl⟩

/-- A decoded packet whose re-encoding is not byte-identical, refuting
the universally quantified claim: the client-side codec decodes the
HandshakeV10 packet `hsBytes` (sequence id 5, auth-plugin-data length
byte 0, no trailing NUL) to `hsDecoded`, but the encoder hardcodes
sequence id 0, recomputes the auth-plugin-data length byte as 9 and
appends a terminating NUL, so the re-encoded bytes differ. -/
theorem c4_counterexample :
    myDecode MyCodec.newClient hsBytes =
      (.msg (.handshake hsDecoded), ⟨.waitingHandshakeResponse, 0, true, 0⟩, []) ∧
    myEncode 0 (.handshake hsDecoded) ≠ hsBytes := by
  decide

/-- C4 (amended): for canonically well-formed OK, ERR and EOF packets
decoded in the `Command` state, and column-definition packets decoded in
the `ReadingColumns` state, under `CLIENT_PROTOCOL_41`, decoding the
encoder's output yields exactly the original message with an empty
remainder, so re-encoding the decoded message reproduces the bytes.
The sequence-id claim fails for HandshakeV10/HandshakeResponse, whose
encoders hardcode sequence ids 0 and 1 (`c4_counterexample`). -/
theorem c4_ok_err_eof_coldef_roundtrip (caps cnt r : Nat) (side : Bool)
    (o : OkPacket) (e : ErrPacket) (f : EofPacket) (cd : ColumnDefinition)
    (h41 : hasFlag caps clientProtocol41 = true)
    (ho : wfOk o) (he : wfErr e) (hf : wfEof f) (hcd : wfColDef cd) :
    myDecode ⟨.command, caps, side, cnt⟩ (myEncode caps (.ok o)) =
      (.msg (.ok o), ⟨.command, caps, side, cnt⟩, []) ∧
    myDecode ⟨.command, caps, side, cnt⟩ (myEncode caps (.err e)) =
      (.msg (.err e), ⟨.command, caps, side, cnt⟩, []) ∧
    myDecode ⟨.command, caps, side, cnt⟩ (myEncode caps (.eof f)) =
      (.msg (.eof f), ⟨.command, caps, side, cnt⟩, []) ∧
    (myDecode ⟨.readingColumns r, caps, side, cnt⟩
        (myEncode caps (.columnDefinition cd))).1 = .msg (.columnDefinition cd) ∧
    (myDecode ⟨.readingColumns r, caps, side, cnt⟩
        (myEncode caps (.columnDefinition cd))).2.2 = [] :=
  ⟨myDecode_encodeOk caps cnt side o h41 ho,
   myDecode_encodeErr caps cnt side e h41 he,
   myDecode_encodeEof caps cnt side f hf,
   (myDecode_encodeColDef caps cnt r side cd hcd).1,
   (myDecode_encodeColDef caps cnt r side cd hcd).2⟩

theorem c4_witness :
    hasFlag 512 clientProtocol41 = true ∧
    (myDecode ⟨.command, 512, true, 0⟩ (myEncode 512 (.ok ⟨1, 1, 0, 2, 0, []⟩)) =
      (.msg (.ok ⟨1, 1, 0, 2, 0, []⟩), ⟨.command, 512, true, 0⟩, []) ∧
    myDecode ⟨.command, 512, true, 0⟩
        (myEncode 512 (.err ⟨1, 1045, asciiBytes "42000", asciiBytes "err"⟩)) =
      (.msg (.err ⟨1, 1045, asciiBytes "42000", asciiBytes "err"⟩),
        ⟨.command, 512, true, 0⟩, []) ∧
    myDecode ⟨.command, 512, true, 0⟩ (myEncode 512 (.eof ⟨1, 0, 2⟩)) =
      (.msg (.eof ⟨1, 0, 2⟩), ⟨.command, 512, true, 0⟩, []) ∧
    (myDecode ⟨.readingColumns 1, 512, true, 0⟩ (myEncode 512 (.columnDefinition
        ⟨2, asciiBytes "def", [], asciiBytes "t", asciiBytes "t",
         asciiBytes "c", asciiBytes "c", 33, 255, 253, 0, 0⟩))).1 =
      .msg (.columnDefinition ⟨2, asciiBytes "def", [], asciiBytes "t", asciiBytes "t",
         asciiBytes "c", asciiBytes "c", 33, 255, 253, 0, 0⟩) ∧
    (myDecode ⟨.readingColumns 1, 512, true, 0⟩ (myEncode 512 (.columnDefinition
        ⟨2, asciiBytes "def", [], asciiBytes "t", asciiBytes "t",
         asciiBytes "c", asciiBytes "c", 33, 255, 253, 0, 0⟩))).2.2 = []) :=
  ⟨by decide,
   c4_ok_err_eof_coldef_roundtrip 512 0 1 true ⟨1, 1, 0, 2, 0, []⟩
     ⟨1, 1045, asciiBytes "42000", asciiBytes "err"⟩ ⟨1, 0, 2⟩
     ⟨2, asciiBytes "def", [], asciiBytes "t", asciiBytes "t",
      asciiBytes "c", asciiBytes "c", 33, 255, 253, 0, 0⟩
     (by decide)
     ⟨by decide, by decide, by decide, by decide, by decide, by decide⟩
     ⟨by decide, by decide, by decide, by unfold validScalar; decide, by decide⟩
     ⟨by decide, by decide, by decide⟩
     ⟨by decide, by decide, by decide, by decide, by decide, by decide, by decide⟩⟩
end IronVeil
